import Mathlib

/-!
Verification of the Review Syndication & Aggregation Engine.

This file is a shallow embedding of the review-lifecycle logic of the
repository: the deduplicated rating aggregation
(src/app/utils/metafields.server.ts, calculateAndUpdateProductMetafields),
the syndication engine (src/unnamed/part_000: isReviewInBundle,
isFirstApproval, syndicateReviewToBundle, removeSyndicatedReviews,
removeSyndicatedReviewForProduct, updateSyndicatedReviewsStatus), the
status-change orchestrator (src/app/routes/app.auth.callback.tsx, action),
the delete/edit orchestrator (src/unnamed/part_002, action,
handleDeleteReview, handleEditReview) and the review submission validation
(src/app/routes/api.productreview.tsx, action).

The Prisma store is modelled as lists of records in insertion order:
findUnique and findFirst scan left to right, create appends, update maps
the matching rows, deleteMany filters.  Record ids are natural numbers
drawn from a nextId counter (three ids per syndication target: copy,
bundleReview, reviewSyndication).  Review images are carried inside each
review row as value records; a nested create copies the image values of
the original verbatim.  Ratings are integers and the published mean is
computed in the rationals, mirroring the exact JS division.
-/

namespace ReviewsBundles

/-- A review image row (url, altText, order), nested under its review. -/
structure ReviewImage where
  id : Nat
  url : String
  altText : String
  order : Nat
deriving DecidableEq, Repr

/-- A productReview row.  status is the literal status string stored by the
source ("pending" / "approved" / "rejected"). -/
structure Review where
  id : Nat
  productId : String
  rating : Int
  author : String
  email : Option String
  title : Option String
  content : String
  status : String
  isBundleReview : Bool
  bundleContext : Option String
  images : List ReviewImage
deriving DecidableEq, Repr

/-- A bundleReview row: the per-target join row created during syndication.
reviewId is the ORIGINAL review id (see syndicateReviewToBundle). -/
structure BundleReview where
  id : Nat
  bundleProductId : String
  reviewId : Nat
  productId : String
deriving DecidableEq, Repr

/-- A reviewSyndication row: the provenance link from an original review to
one syndicated copy on one target product. -/
structure ReviewSyndication where
  id : Nat
  originalReviewId : Nat
  syndicatedReviewId : Nat
  bundleId : Nat
  productId : String
deriving DecidableEq, Repr

/-- A reviewBundle row.  productIds is the comma-separated member list
exactly as stored. -/
structure ReviewBundle where
  id : Nat
  name : String
  bundleProductId : String
  productIds : String
deriving DecidableEq, Repr

/-- The relational store. -/
structure DB where
  productReviews : List Review
  bundleReviews : List BundleReview
  reviewSyndications : List ReviewSyndication
  reviewBundles : List ReviewBundle
  nextId : Nat
deriving DecidableEq, Repr

/-- JS String.prototype.split with a one-character separator, on the
character list: "a,,b" splits to ["a", "", "b"] and "" to [""]. -/
def splitOnChar (sep : Char) : List Char → List (List Char)
  | [] => [[]]
  | c :: rest =>
    let r := splitOnChar sep rest
    if c == sep then [] :: r
    else
      match r with
      | [] => [[c]]
      | h :: t => (c :: h) :: t

def splitString (sep : Char) (s : String) : List String :=
  (splitOnChar sep s.data).map (fun cs => String.mk cs)

/-- getNumericProductId: gid.split( the slash ).at(-1). -/
def getNumericProductId (gid : String) : String :=
  (splitString '/' gid).getLastD gid

/-- One list is a contiguous infix of another. -/
def infixOf (pat : List Char) : List Char → Bool
  | [] => pat.isPrefixOf []
  | c :: rest => pat.isPrefixOf (c :: rest) || infixOf pat rest

/-- Prisma string `contains` filter: substring containment. -/
def strContains (s pat : String) : Bool :=
  infixOf pat.data s.data

/-- bundle.productIds.split(",") -/
def csvSplit (s : String) : List String :=
  splitString ',' s

/-- Array.from(new Set(xs)): deduplicate keeping first occurrences. -/
def dedupFirstAux : List String → List String → List String
  | [], _ => []
  | x :: rest, seen =>
    if x ∈ seen then dedupFirstAux rest seen
    else x :: dedupFirstAux rest (x :: seen)

def jsSetDedup (l : List String) : List String := dedupFirstAux l []

/-- .filter(id => id && id !== "undefined") on the product list. -/
def filterProductIds (l : List String) : List String :=
  l.filter (fun s => !(s == "") && !(s == "undefined"))

/-- JS truthiness of an optional form/string field: absent or empty. -/
def isBlankOpt (o : Option String) : Bool :=
  match o with
  | none => true
  | some s => s == ""

/-- email || null -/
def emailOrNull (o : Option String) : Option String :=
  match o with
  | none => none
  | some s => if s == "" then none else some s

/-- parseInt(s, 10): optional leading whitespace and sign, then the longest
leading digit run; none when no digit is found. -/
def jsParseInt (s : String) : Option Int :=
  let cs := s.data.dropWhile (fun c => c.isWhitespace)
  let signAndRest : Bool × List Char :=
    match cs with
    | '-' :: rest => (true, rest)
    | '+' :: rest => (false, rest)
    | _ => (false, cs)
  let ds := signAndRest.2.takeWhile (fun c => c.isDigit)
  if ds.isEmpty then none
  else
    let v : Nat := ds.foldl (fun a c => a * 10 + (c.toNat - '0'.toNat)) 0
    some (if signAndRest.1 then -(v : Int) else (v : Int))

/-! ### Store lookups (src/unnamed/part_000) -/

/-- db.productReview.findUnique(where id). -/
def findReview (db : DB) (rid : Nat) : Option Review :=
  db.productReviews.find? (fun r => r.id == rid)

/-- Result record of isReviewInBundle. -/
structure BundleInfo where
  inBundle : Bool
  bundleId : Option Nat
  isSyndicated : Bool
deriving DecidableEq, Repr

/-- isReviewInBundle: looks the review up, then finds the first
reviewBundle whose comma-separated productIds string CONTAINS the review's
numeric product id as a substring. -/
def isReviewInBundle (db : DB) (reviewId : Nat) : BundleInfo :=
  match findReview db reviewId with
  | none => ⟨false, none, false⟩
  | some originalReview =>
    let productNumericId := getNumericProductId originalReview.productId
    match db.reviewBundles.find? (fun b => strContains b.productIds productNumericId) with
    | some bundleConfig => ⟨true, some bundleConfig.id, originalReview.isBundleReview⟩
    | none => ⟨false, none, false⟩

/-- isFirstApproval: true iff no reviewSyndication row references this id
as its original. -/
def isFirstApproval (db : DB) (reviewId : Nat) : Bool :=
  (db.reviewSyndications.filter (fun s => s.originalReviewId == reviewId)).length == 0

/-- findOriginalReviewId: reverse lookup from a copy to its original. -/
def findOriginalReviewId (db : DB) (syndicatedReviewId : Nat) : Option Nat :=
  (db.reviewSyndications.find? (fun s => s.syndicatedReviewId == syndicatedReviewId)).map
    (fun s => s.originalReviewId)

/-! ### Aggregation engine
(src/app/utils/metafields.server.ts, steps 1-4 of
calculateAndUpdateProductMetafields; the metafieldsSet publish call is the
external catalog collaborator and is not part of the computation). -/

/-- The published aggregate: count and mean. -/
structure Aggregate where
  count : Nat
  mean : Rat
deriving DecidableEq, Repr

/-- JS Map.prototype.set on an insertion-ordered association list:
overwrite in place when the key exists, append otherwise. -/
def mapSet (m : List (String × Int)) (k : String) (v : Int) : List (String × Int) :=
  if m.any (fun e => e.1 == k) then
    m.map (fun e => if e.1 == k then (k, v) else e)
  else m ++ [(k, v)]

/-- Step 1: direct approved non-copy reviews of the product, as
deduplication entries keyed "direct-" ++ id. -/
def directEntries (db : DB) (productNumericId : String) : List (String × Int) :=
  (db.productReviews.filter (fun r =>
      r.productId == productNumericId && r.status == "approved" && r.isBundleReview == false)).map
    (fun r => ("direct-" ++ toString r.id, r.rating))

/-- Step 2: bundleReview rows of the product joined to their review
relation (the ORIGINAL review, since bundleReview.reviewId stores the
original id) filtered to approved, as entries keyed
"syndicated-" ++ bundleProductId ++ "-" ++ reviewId. -/
def syndicatedEntries (db : DB) (productNumericId : String) : List (String × Int) :=
  db.bundleReviews.filterMap (fun br =>
    if br.productId == productNumericId then
      match findReview db br.reviewId with
      | some rv =>
        if rv.status == "approved" then
          some ("syndicated-" ++ br.bundleProductId ++ "-" ++ toString br.reviewId, rv.rating)
        else none
      | none => none
    else none)

/-- Step 3: the deduplication map, direct entries inserted first. -/
def ratingMap (db : DB) (productNumericId : String) : List (String × Int) :=
  (directEntries db productNumericId ++ syndicatedEntries db productNumericId).foldl
    (fun m e => mapSet m e.1 e.2) []

/-- Sum of the values held in the deduplication map. -/
def ratingSum (m : List (String × Int)) : Int :=
  (m.map (fun e => e.2)).foldl (fun a b => a + b) 0

/-- Step 4: count = map.size, mean = sum/count when count > 0 else 0. -/
def computeAggregate (db : DB) (productNumericId : String) : Aggregate :=
  let m := ratingMap db productNumericId
  let finalReviewCount := m.length
  let totalRatingSum := ratingSum m
  { count := finalReviewCount
    mean := if finalReviewCount > 0 then (totalRatingSum : Rat) / (finalReviewCount : Rat) else 0 }

/-! ### Syndication engine (src/unnamed/part_000) -/

/-- Map one review row in place (Prisma update by id; a no-op when the row
is absent, which never happens in the states the theorems quantify over). -/
def mapReview (db : DB) (rid : Nat) (f : Review → Review) : DB :=
  { db with productReviews := db.productReviews.map (fun r => if r.id == rid then f r else r) }

/-- db.productReview.update(where id, data status). -/
def setReviewStatus (db : DB) (rid : Nat) (status : String) : DB :=
  mapReview db rid (fun r => { r with status := status })

/-- The mutable fields written into a copy by syndicateReviewToBundle's
update branch: rating, author, email, title, content, status forced to
approved, and the image set replaced by the original's (deleteMany then
nested create of the original's image values). -/
def copyFieldsFrom (originalReview : Review) (r : Review) : Review :=
  { r with
    rating := originalReview.rating
    author := originalReview.author
    email := originalReview.email
    title := originalReview.title
    content := originalReview.content
    status := "approved"
    images := originalReview.images }

/-- The body of the per-target loop of syndicateReviewToBundle: skip the
original's own product; update the existing copy in place when a
reviewSyndication row for (original, target) exists; otherwise create the
copy review, the bundleReview join row (keyed by the ORIGINAL review id)
and the reviewSyndication link. -/
def syndicateStep (bundle : ReviewBundle) (originalReview : Review)
    (originalProductNumericId : String) (reviewId bundleId : Nat)
    (db : DB) (targetProductId : String) : DB :=
  if targetProductId == originalProductNumericId then db
  else
    match db.reviewSyndications.find? (fun s =>
        s.originalReviewId == reviewId && s.productId == targetProductId) with
    | some existingSyndication =>
      mapReview db existingSyndication.syndicatedReviewId (copyFieldsFrom originalReview)
    | none =>
      let syndicatedReview : Review :=
        { id := db.nextId
          productId := targetProductId
          rating := originalReview.rating
          author := originalReview.author
          email := originalReview.email
          title := originalReview.title
          content := originalReview.content
          status := "approved"
          isBundleReview := true
          bundleContext := some ("Syndicated from " ++ bundle.name ++
            " (Original: " ++ toString reviewId ++ ")")
          images := originalReview.images }
      let bundleReview : BundleReview :=
        { id := db.nextId + 1
          bundleProductId := bundle.bundleProductId
          reviewId := reviewId
          productId := targetProductId }
      let syndicationEntry : ReviewSyndication :=
        { id := db.nextId + 2
          originalReviewId := reviewId
          syndicatedReviewId := syndicatedReview.id
          bundleId := bundleId
          productId := targetProductId }
      { db with
        productReviews := db.productReviews ++ [syndicatedReview]
        bundleReviews := db.bundleReviews ++ [bundleReview]
        reviewSyndications := db.reviewSyndications ++ [syndicationEntry]
        nextId := db.nextId + 3 }

/-- syndicateReviewToBundle: load the bundle and the original, then run the
per-target loop over the bundle's member list.  Lookup failures leave the
store untouched (the source returns an error result). -/
def syndicateReviewToBundle (db : DB) (reviewId bundleId : Nat) : DB :=
  match db.reviewBundles.find? (fun b => b.id == bundleId) with
  | none => db
  | some bundle =>
    match findReview db reviewId with
    | none => db
    | some originalReview =>
      let bundleProductIds := csvSplit bundle.productIds
      let originalProductNumericId := getNumericProductId originalReview.productId
      bundleProductIds.foldl
        (syndicateStep bundle originalReview originalProductNumericId reviewId bundleId) db

/-- One sweep step of removeSyndicatedReviews: delete the copy review by
id, the bundleReview rows keyed (originalReviewId, entry.productId), and
the reviewSyndication row itself. -/
def removeEntry (originalReviewId : Nat) (db : DB) (entry : ReviewSyndication) : DB :=
  { db with
    productReviews := db.productReviews.filter (fun r => !(r.id == entry.syndicatedReviewId))
    bundleReviews := db.bundleReviews.filter (fun br =>
      !(br.reviewId == originalReviewId && br.productId == entry.productId))
    reviewSyndications := db.reviewSyndications.filter (fun s => !(s.id == entry.id)) }

/-- removeSyndicatedReviews: enumerate every link of the original and apply
the per-entry removal. -/
def removeSyndicatedReviews (db : DB) (originalReviewId : Nat) : DB :=
  let syndicationEntries :=
    db.reviewSyndications.filter (fun s => s.originalReviewId == originalReviewId)
  syndicationEntries.foldl (removeEntry originalReviewId) db

/-- removeSyndicatedReviewForProduct: the same removal for one
(original, target product) pair; absence is not an error. -/
def removeSyndicatedReviewForProduct (db : DB) (originalReviewId : Nat)
    (targetProductId : String) : DB :=
  match db.reviewSyndications.find? (fun s =>
      s.originalReviewId == originalReviewId && s.productId == targetProductId) with
  | none => db
  | some syndicationEntry => removeEntry originalReviewId db syndicationEntry

/-- updateSyndicatedReviewsStatus: set the given status on every copy
reachable via the original's links. -/
def updateSyndicatedReviewsStatus (db : DB) (originalReviewId : Nat) (status : String) : DB :=
  let syndicationEntries :=
    db.reviewSyndications.filter (fun s => s.originalReviewId == originalReviewId)
  syndicationEntries.foldl
    (fun acc entry => setReviewStatus acc entry.syndicatedReviewId status) db

/-! ### Lifecycle orchestrators -/

/-- The re-aggregation set shared by the orchestrators: the review's own
numeric product id, plus every member of its bundle when one is found.
The status-change route pushes the members only for actionSource bundle;
the delete/edit route pushes them unconditionally. -/
def bundleConfigOf (db : DB) (bundleInfo : BundleInfo) : Option ReviewBundle :=
  if bundleInfo.inBundle then
    match bundleInfo.bundleId with
    | some bid => db.reviewBundles.find? (fun b => b.id == bid)
    | none => none
  else none

/-- Status-change orchestrator
(src/app/routes/app.auth.callback.tsx, action).  Returns none on the 400
(invalid status string) and 404 (review not found) paths, otherwise the
mutated store together with the deduplicated product list handed to the
re-aggregation and publish loop. -/
def changeStatusAction (db : DB) (reviewId : Nat) (status : String)
    (actionSource : String) : Option (DB × List String) :=
  if !(["pending", "approved", "rejected"].contains status) then none
  else
    match findReview db reviewId with
    | none => none
    | some currentReview =>
      let productNumericId := getNumericProductId currentReview.productId
      let bundleInfo := isReviewInBundle db reviewId
      let bundleConfig := bundleConfigOf db bundleInfo
      let productsToUpdateMetafields :=
        match bundleConfig with
        | some bc =>
          if actionSource == "bundle" then [productNumericId] ++ csvSplit bc.productIds
          else [productNumericId]
        | none => [productNumericId]
      let stepped : DB × List String :=
        match bundleConfig with
        | some bc =>
          if actionSource == "bundle" then
            if status == "approved" then
              let db1 :=
                if isFirstApproval db reviewId then
                  syndicateReviewToBundle db reviewId bc.id
                else
                  updateSyndicatedReviewsStatus db reviewId "approved"
              (setReviewStatus db1 reviewId "approved", productsToUpdateMetafields)
            else if status == "rejected" then
              let db1 := setReviewStatus db reviewId "rejected"
              let originalReviewId :=
                if bundleInfo.isSyndicated then findOriginalReviewId db1 reviewId
                else some reviewId
              match originalReviewId with
              | some oid =>
                (updateSyndicatedReviewsStatus db1 oid "rejected", productsToUpdateMetafields)
              | none => (db1, productsToUpdateMetafields)
            else
              let db1 := setReviewStatus db reviewId "pending"
              let originalReviewId :=
                if bundleInfo.isSyndicated then findOriginalReviewId db1 reviewId
                else some reviewId
              match originalReviewId with
              | some oid =>
                (updateSyndicatedReviewsStatus db1 oid "pending", productsToUpdateMetafields)
              | none => (db1, productsToUpdateMetafields)
          else if actionSource == "individual" then
            let db1 := setReviewStatus db reviewId status
            if bundleInfo.isSyndicated then (db1, productsToUpdateMetafields)
            else (db1, [productNumericId])
          else (setReviewStatus db reviewId status, productsToUpdateMetafields)
        | none =>
          if actionSource == "individual" then
            let db1 := setReviewStatus db reviewId status
            if bundleInfo.isSyndicated then (db1, productsToUpdateMetafields)
            else (db1, [productNumericId])
          else (setReviewStatus db reviewId status, productsToUpdateMetafields)
      some (stepped.1, filterProductIds (jsSetDedup stepped.2))

/-- Delete orchestrator (src/unnamed/part_002, action with intent delete,
then handleDeleteReview).  The bundle member list is pushed into the
re-aggregation set regardless of actionSource. -/
def deleteAction (db : DB) (reviewId : Nat) (actionSource : String) :
    Option (DB × List String) :=
  match findReview db reviewId with
  | none => none
  | some currentReview =>
    let productNumericId := getNumericProductId currentReview.productId
    let bundleInfo := isReviewInBundle db reviewId
    let bundleConfig := bundleConfigOf db bundleInfo
    let productsToUpdateMetafields :=
      match bundleConfig with
      | some bc => [productNumericId] ++ csvSplit bc.productIds
      | none => [productNumericId]
    let sweep : DB × Nat :=
      if bundleInfo.inBundle then
        if actionSource == "bundle" then
          let originalId :=
            if bundleInfo.isSyndicated then findOriginalReviewId db reviewId
            else some reviewId
          match originalId with
          | some oid => (removeSyndicatedReviews db oid, oid)
          | none => (db, reviewId)
        else if actionSource == "individual" then
          if bundleInfo.isSyndicated then
            match findOriginalReviewId db reviewId with
            | some oid => (removeSyndicatedReviewForProduct db oid productNumericId, reviewId)
            | none => (db, reviewId)
          else (removeSyndicatedReviews db reviewId, reviewId)
        else (db, reviewId)
      else (db, reviewId)
    let db2 :=
      { sweep.1 with productReviews := sweep.1.productReviews.filter (fun r => !(r.id == sweep.2)) }
    some (db2, filterProductIds (jsSetDedup productsToUpdateMetafields))

/-- The edit form fields (src/unnamed/part_002, handleEditReview). -/
structure EditForm where
  title : Option String
  content : Option String
  rating : Option String
  author : Option String
  email : Option String
  status : Option String
  imagesToRemove : List Nat
deriving DecidableEq, Repr

inductive EditOutcome
  | notFound
  | invalidInput
  | success
deriving DecidableEq, Repr

/-- The field update applied to the primary review and propagated verbatim
to the copies (status defaults to pending when the form field is blank;
the propagation update does not touch images). -/
def editFields (f : EditForm) (parsedRating : Int) (r : Review) : Review :=
  { r with
    title := f.title
    content := (f.content.getD "")
    rating := parsedRating
    author := (f.author.getD "")
    email := emailOrNull f.email
    status := match f.status with
      | some s => if s == "" then "pending" else s
      | none => "pending" }

/-- Edit orchestrator (src/unnamed/part_002, action with intent edit, then
handleEditReview): validate first (fail fast, store untouched), then
remove the requested images of the review, update its fields, propagate
the same fields to the copies when actionSource is bundle and the review
is an original, and return the re-aggregation set (own product plus every
bundle member whenever the review is in a bundle). -/
def editAction (db : DB) (reviewId : Nat) (f : EditForm) (actionSource : String) :
    EditOutcome × DB × List String :=
  match findReview db reviewId with
  | none => (.notFound, db, [])
  | some currentReview =>
    let productNumericId := getNumericProductId currentReview.productId
    let bundleInfo := isReviewInBundle db reviewId
    let bundleConfig := bundleConfigOf db bundleInfo
    let productsToUpdateMetafields :=
      match bundleConfig with
      | some bc => [productNumericId] ++ csvSplit bc.productIds
      | none => [productNumericId]
    if isBlankOpt f.title || isBlankOpt f.content || isBlankOpt f.rating || isBlankOpt f.author then
      (.invalidInput, db, [])
    else
      match jsParseInt (f.rating.getD "") with
      | none => (.invalidInput, db, [])
      | some parsedRating =>
        if parsedRating < 1 || parsedRating > 5 then (.invalidInput, db, [])
        else
          let db1 :=
            if decide (f.imagesToRemove.length > 0) then
              mapReview db reviewId (fun r =>
                { r with images := r.images.filter (fun img => !(f.imagesToRemove.contains img.id)) })
            else db
          let db2 := mapReview db1 reviewId (editFields f parsedRating)
          let db3 :=
            if bundleInfo.inBundle && actionSource == "bundle" && !bundleInfo.isSyndicated then
              let copyIds :=
                (db2.reviewSyndications.filter (fun s => s.originalReviewId == reviewId)).map
                  (fun s => s.syndicatedReviewId)
              if decide (copyIds.length > 0) then
                { db2 with productReviews := db2.productReviews.map (fun r =>
                    if copyIds.contains r.id then editFields f parsedRating r else r) }
              else db2
            else db2
          (.success, db3, filterProductIds (jsSetDedup productsToUpdateMetafields))

/-! ### Review submission (src/app/routes/api.productreview.tsx, action)

The image upload loop talks to the external catalog service and can only
shrink the image list, so the created review is modelled with an empty
image list; no claim depends on the uploaded image references. -/

def wsChar (c : Char) : Bool := c.isWhitespace

/-- Remove trailing whitespace (the tail half of String.prototype.trim). -/
def jsTrimEnd : List Char → List Char
  | [] => []
  | c :: rest =>
    let r := jsTrimEnd rest
    if r.isEmpty && wsChar c then [] else c :: r

/-- content.trim(): strip leading and trailing whitespace. -/
def jsTrim (s : String) : List Char :=
  jsTrimEnd (s.data.dropWhile wsChar)

/-- Number of maximal non-whitespace runs; the flag records whether the
previous character was part of a word. -/
def countRunsAux : Bool → List Char → Nat
  | _, [] => 0
  | prevInWord, c :: rest =>
    if wsChar c then countRunsAux false rest
    else (if prevInWord then 0 else 1) + countRunsAux true rest

def countRuns (l : List Char) : Nat := countRunsAux false l

/-- content.trim().split(whitespace runs).length: on the trimmed text this
is the number of maximal non-whitespace runs, except that splitting the
empty string yields one (empty) fragment. -/
def submitWordCount (content : String) : Nat :=
  let t := jsTrim content
  if t.isEmpty then 1 else countRuns t

/-- The number of whitespace-separated words of a text (specification-side
notion used to state the content-length claim). -/
def wordsOf (s : String) : Nat := countRuns s.data

/-- A character admissible in the email regex atoms: anything except
whitespace and the at sign. -/
def emailAtomChar (c : Char) : Bool := !(c.isWhitespace) && !(c == '@')

/-- The email regex of the submission route: one atom run, an at sign, a
domain that contains a dot with a nonempty atom run on each side. -/
def validEmail (s : String) : Bool :=
  let cs := s.data
  match cs.findIdx? (fun c => c == '@') with
  | none => false
  | some i =>
    let localPart := cs.take i
    let rest := cs.drop (i + 1)
    !(localPart.isEmpty) && localPart.all emailAtomChar && !(rest.isEmpty) &&
      rest.all emailAtomChar && ((rest.drop 1).dropLast.contains '.')

/-- The regex ^(digits)+$ used on the normalized product id. -/
def allDigits (s : String) : Bool :=
  !(s.isEmpty) && s.data.all (fun c => c.isDigit)

inductive SubmitOutcome
  | missingFields
  | invalidProductId
  | invalidRating
  | invalidEmail
  | contentTooLong
  | created
deriving DecidableEq, Repr

/-- The gid normalization applied to the submitted product id. -/
def normalizeProductId (productId : Option String) : String :=
  let pid0 := productId.getD ""
  if "gid://shopify/Product/".data.isPrefixOf pid0.data then
    (splitString '/' pid0).getLastD ""
  else pid0

/-- The review row created by a successful submission.  The uploaded image
references come from the external catalog service, so the created row is
modelled with an empty image list; no claim depends on them. -/
def mkSubmittedReview (db : DB) (productId author content email title : Option String)
    (parsedRating : Int) : Review :=
  { id := db.nextId
    productId := normalizeProductId productId
    rating := parsedRating
    author := author.getD ""
    email := some (email.getD "")
    title := match title with
      | some t => if t == "" then none else some t
      | none => none
    content := content.getD ""
    status := "pending"
    isBundleReview := false
    bundleContext := none
    images := [] }

/-- The submission action: required-field truthiness, gid normalization,
numeric product id check, rating bounds, email regex, then the 200-word
content gate, and only then the create. -/
def submitAction (db : DB) (productId rating author content email title : Option String) :
    SubmitOutcome × DB :=
  if isBlankOpt productId || isBlankOpt rating || isBlankOpt author ||
      isBlankOpt content || isBlankOpt email then
    (.missingFields, db)
  else if !(allDigits (normalizeProductId productId)) then (.invalidProductId, db)
  else
    match jsParseInt (rating.getD "") with
    | none => (.invalidRating, db)
    | some parsedRating =>
      if parsedRating < 1 || parsedRating > 5 then (.invalidRating, db)
      else if !(validEmail (email.getD "")) then (.invalidEmail, db)
      else if submitWordCount (content.getD "") > 200 then (.contentTooLong, db)
      else
        (.created, { db with
          productReviews := db.productReviews ++
            [mkSubmittedReview db productId author content email title parsedRating]
          nextId := db.nextId + 1 })

/-! ### Explicit description of the rows produced by one syndication pass

The per-target loop of syndicateReviewToBundle allocates three ids per
created target (copy review, bundleReview, reviewSyndication) and skips
the original's own product.  The following functions spell those rows out;
syndFold_spec proves they are exactly what the fold produces. -/

def mkCopy (originalReview : Review) (bundleName : String) (reviewId : Nat)
    (targetProductId : String) (n : Nat) : Review :=
  ⟨n, targetProductId, originalReview.rating, originalReview.author, originalReview.email,
    originalReview.title, originalReview.content, "approved", true,
    some ("Syndicated from " ++ bundleName ++ " (Original: " ++ toString reviewId ++ ")"),
    originalReview.images⟩

def mkBr (bundle : ReviewBundle) (reviewId : Nat) (targetProductId : String)
    (n : Nat) : BundleReview :=
  ⟨n + 1, bundle.bundleProductId, reviewId, targetProductId⟩

def mkSyn (reviewId bundleId : Nat) (targetProductId : String) (n : Nat) : ReviewSyndication :=
  ⟨n + 2, reviewId, n, bundleId, targetProductId⟩

def mkCopies (orig : Review) (bundleName : String) (reviewId : Nat) (origPN : String) :
    List String → Nat → List Review
  | [], _ => []
  | t :: ts, n =>
    if t == origPN then mkCopies orig bundleName reviewId origPN ts n
    else mkCopy orig bundleName reviewId t n :: mkCopies orig bundleName reviewId origPN ts (n + 3)

def mkBrs (bundle : ReviewBundle) (reviewId : Nat) (origPN : String) :
    List String → Nat → List BundleReview
  | [], _ => []
  | t :: ts, n =>
    if t == origPN then mkBrs bundle reviewId origPN ts n
    else mkBr bundle reviewId t n :: mkBrs bundle reviewId origPN ts (n + 3)

def mkSyns (reviewId bundleId : Nat) (origPN : String) :
    List String → Nat → List ReviewSyndication
  | [], _ => []
  | t :: ts, n =>
    if t == origPN then mkSyns reviewId bundleId origPN ts n
    else mkSyn reviewId bundleId t n :: mkSyns reviewId bundleId origPN ts (n + 3)

def mkNext (origPN : String) : List String → Nat → Nat
  | [], n => n
  | t :: ts, n =>
    if t == origPN then mkNext origPN ts n else mkNext origPN ts (n + 3)

/-! ### Scenario and witness data -/

/-- A minimal store holding one review and one bundle: the state before the
first approval of a bundled review. -/
def scenarioDB (R : Review) (b : ReviewBundle) (n : Nat) : DB :=
  ⟨[R], [], [], [b], n⟩

/-- The claim-side description of an invalid edit form: a missing or empty
required field (title, content, rating, author) or a rating that does not
parse to an integer in [1,5]. -/
def invalidEditForm (f : EditForm) : Bool :=
  isBlankOpt f.title || isBlankOpt f.content || isBlankOpt f.rating || isBlankOpt f.author ||
    (match jsParseInt (f.rating.getD "") with
     | none => true
     | some v => decide (v < 1) || decide (v > 5))

/-- Witness data: an approved original review on product 1. -/
def wOrig : Review :=
  ⟨1, "1", 5, "au", some "a@b.c", some "t", "nice", "approved", false, none, []⟩

/-- Witness data: the same review still pending. -/
def wOrigPending : Review :=
  ⟨1, "1", 5, "au", some "a@b.c", some "t", "nice", "pending", false, none, []⟩

/-- Witness data: a three-product bundle. -/
def wBundle : ReviewBundle := ⟨10, "B", "99", "1,2,3"⟩

def wBase : DB := scenarioDB wOrig wBundle 50

def wBasePending : DB := scenarioDB wOrigPending wBundle 50

/-- The store after the first syndication pass of the approved original. -/
def wSynd : DB := syndicateReviewToBundle wBase 1 10

/-- The copy materialized on product 2 by that pass (review id 50). -/
def wCopy2 : Review := mkCopy wOrig "B" 1 "2" 50

/-- C3 scenario: an original with status s1 on product 1, its copy with
status s2 on product 2, the bundleReview join row and the link. -/
def c3DB (s1 s2 : String) (rating : Int) : DB :=
  ⟨[⟨1, "1", rating, "au", none, some "t", "c", s1, false, none, []⟩,
    ⟨2, "2", rating, "au", none, some "t", "c", s2, true, some "ctx", []⟩],
   [⟨3, "99", 1, "2"⟩],
   [⟨4, 1, 2, 10, "2"⟩],
   [⟨10, "B", "99", "1,2"⟩],
   20⟩

/-- C7 scenario: an original review on product 1 inside a two-product
bundle, no syndication yet. -/
def c7Review : Review := ⟨1, "1", 5, "au", none, some "t", "c", "approved", false, none, []⟩

def c7db : DB := ⟨[c7Review], [], [], [⟨10, "B", "99", "1,2"⟩], 50⟩

def c7form : EditForm := ⟨some "t2", some "c2", some "4", some "au2", none, some "approved", []⟩

/-- C9 witness data: a stored review and an edit form with rating 6. -/
def w9db : DB := ⟨[⟨1, "1", 5, "au", none, some "t", "c", "pending", false, none, []⟩], [], [], [], 2⟩

def w9form : EditForm := ⟨some "t", some "c", some "6", some "au", none, none, []⟩

/-- C10 witness data: a body of 201 whitespace-separated words. -/
def bigContent : String := String.mk ((List.replicate 200 ['w', ' ']).flatten ++ ['w'])

/-! ## Lemmas -/

theorem mkCopies_isBundle (orig : Review) (bn : String) (rid : Nat) (origPN : String) :
    ∀ (ts : List String) (n : Nat), ∀ r ∈ mkCopies orig bn rid origPN ts n,
      r.isBundleReview = true := by
  intro ts
  induction ts with
  | nil => intro n r hr; simp [mkCopies] at hr
  | cons t ts ih =>
    intro n r hr
    by_cases h : (t == origPN) = true
    · rw [mkCopies, if_pos h] at hr
      exact ih n r hr
    · rw [mkCopies, if_neg h] at hr
      rcases List.mem_cons.mp hr with h1 | h1
      · subst h1; rfl
      · exact ih (n + 3) r h1

theorem mkCopies_status (orig : Review) (bn : String) (rid : Nat) (origPN : String) :
    ∀ (ts : List String) (n : Nat), ∀ r ∈ mkCopies orig bn rid origPN ts n,
      r.status = "approved" := by
  intro ts
  induction ts with
  | nil => intro n r hr; simp [mkCopies] at hr
  | cons t ts ih =>
    intro n r hr
    by_cases h : (t == origPN) = true
    · rw [mkCopies, if_pos h] at hr
      exact ih n r hr
    · rw [mkCopies, if_neg h] at hr
      rcases List.mem_cons.mp hr with h1 | h1
      · subst h1; rfl
      · exact ih (n + 3) r h1

theorem mkCopies_id_ge (orig : Review) (bn : String) (rid : Nat) (origPN : String) :
    ∀ (ts : List String) (n : Nat), ∀ r ∈ mkCopies orig bn rid origPN ts n,
      n ≤ r.id := by
  intro ts
  induction ts with
  | nil => intro n r hr; simp [mkCopies] at hr
  | cons t ts ih =>
    intro n r hr
    by_cases h : (t == origPN) = true
    · rw [mkCopies, if_pos h] at hr
      exact ih n r hr
    · rw [mkCopies, if_neg h] at hr
      rcases List.mem_cons.mp hr with h1 | h1
      · subst h1; exact Nat.le_refl n
      · exact Nat.le_trans (Nat.le_add_right n 3) (ih (n + 3) r h1)

theorem mkSyns_id_ge (rid bid : Nat) (origPN : String) :
    ∀ (ts : List String) (n : Nat), ∀ s ∈ mkSyns rid bid origPN ts n,
      n ≤ s.id := by
  intro ts
  induction ts with
  | nil => intro n s hs; simp [mkSyns] at hs
  | cons t ts ih =>
    intro n s hs
    by_cases h : (t == origPN) = true
    · rw [mkSyns, if_pos h] at hs
      exact ih n s hs
    · rw [mkSyns, if_neg h] at hs
      rcases List.mem_cons.mp hs with h1 | h1
      · subst h1; exact Nat.le_add_right n 2
      · exact Nat.le_trans (Nat.le_add_right n 3) (ih (n + 3) s h1)

theorem mkSyns_orig (rid bid : Nat) (origPN : String) :
    ∀ (ts : List String) (n : Nat), ∀ s ∈ mkSyns rid bid origPN ts n,
      s.originalReviewId = rid := by
  intro ts
  induction ts with
  | nil => intro n s hs; simp [mkSyns] at hs
  | cons t ts ih =>
    intro n s hs
    by_cases h : (t == origPN) = true
    · rw [mkSyns, if_pos h] at hs
      exact ih n s hs
    · rw [mkSyns, if_neg h] at hs
      rcases List.mem_cons.mp hs with h1 | h1
      · subst h1; rfl
      · exact ih (n + 3) s h1

theorem mkSyns_map_productId (rid bid : Nat) (origPN : String) :
    ∀ (ts : List String) (n : Nat),
      (mkSyns rid bid origPN ts n).map (fun s => s.productId) =
        ts.filter (fun t => !(t == origPN)) := by
  intro ts
  induction ts with
  | nil => intro n; simp [mkSyns]
  | cons t ts ih =>
    intro n
    by_cases h : (t == origPN) = true
    · rw [mkSyns, if_pos h, List.filter_cons_of_neg (by simp [h]), ih]
    · rw [mkSyns, if_neg h, List.filter_cons_of_pos (by simp [h]), List.map_cons, ih]
      rfl

/-- The create path of the per-target loop, spelled out. -/
theorem syndFold_spec (bundle : ReviewBundle) (orig : Review) (origPN : String) (rid bid : Nat) :
    ∀ (ts : List String) (db : DB),
      (∀ s ∈ db.reviewSyndications, ¬(s.originalReviewId = rid ∧ s.productId ∈ ts)) →
      ts.Nodup →
      ts.foldl (syndicateStep bundle orig origPN rid bid) db =
        ⟨db.productReviews ++ mkCopies orig bundle.name rid origPN ts db.nextId,
         db.bundleReviews ++ mkBrs bundle rid origPN ts db.nextId,
         db.reviewSyndications ++ mkSyns rid bid origPN ts db.nextId,
         db.reviewBundles,
         mkNext origPN ts db.nextId⟩ := by
  intro ts
  induction ts with
  | nil =>
    intro db _ _
    simp [mkCopies, mkBrs, mkSyns, mkNext]
  | cons t ts ih =>
    intro db h1 h2
    rw [List.foldl_cons]
    by_cases h : (t == origPN) = true
    · rw [mkCopies, if_pos h, mkBrs, if_pos h, mkSyns, if_pos h, mkNext, if_pos h]
      have hstep : syndicateStep bundle orig origPN rid bid db t = db := by
        unfold syndicateStep
        rw [if_pos h]
      rw [hstep]
      exact ih db (fun s hs hc => h1 s hs ⟨hc.1, List.mem_cons_of_mem t hc.2⟩)
        (List.nodup_cons.mp h2).2
    · rw [mkCopies, if_neg h, mkBrs, if_neg h, mkSyns, if_neg h, mkNext, if_neg h]
      have hfind : db.reviewSyndications.find? (fun s =>
          s.originalReviewId == rid && s.productId == t) = none := by
        apply List.find?_eq_none.mpr
        intro s hs hc
        rw [Bool.and_eq_true, beq_iff_eq, beq_iff_eq] at hc
        exact h1 s hs ⟨hc.1, by rw [hc.2]; exact List.mem_cons_self t ts⟩
      have hstep : syndicateStep bundle orig origPN rid bid db t =
          ⟨db.productReviews ++ [mkCopy orig bundle.name rid t db.nextId],
           db.bundleReviews ++ [mkBr bundle rid t db.nextId],
           db.reviewSyndications ++ [mkSyn rid bid t db.nextId],
           db.reviewBundles,
           db.nextId + 3⟩ := by
        unfold syndicateStep
        rw [if_neg h, hfind]
        rfl
      rw [hstep]
      have h2' := List.nodup_cons.mp h2
      have := ih ⟨db.productReviews ++ [mkCopy orig bundle.name rid t db.nextId],
           db.bundleReviews ++ [mkBr bundle rid t db.nextId],
           db.reviewSyndications ++ [mkSyn rid bid t db.nextId],
           db.reviewBundles,
           db.nextId + 3⟩
        (by
          intro s hs hc
          rcases List.mem_append.mp hs with hold | hnew
          · exact h1 s hold ⟨hc.1, List.mem_cons_of_mem t hc.2⟩
          · rw [List.mem_singleton] at hnew
            subst hnew
            exact h2'.1 hc.2)
        h2'.2
      rw [this]
      simp [List.append_assoc]

theorem find_append_none {α : Type} (p : α → Bool) (l1 l2 : List α)
    (h : l1.find? p = none) : (l1 ++ l2).find? p = l2.find? p := by
  induction l1 with
  | nil => simp
  | cons x xs ih =>
    rw [List.cons_append]
    cases hx : p x with
    | true => simp [List.find?_cons, hx] at h
    | false =>
      simp only [List.find?_cons, hx] at h ⊢
      exact ih h

theorem map_id_of_mem {α : Type} (f : α → α) (l : List α)
    (h : ∀ x ∈ l, f x = x) : l.map f = l := by
  induction l with
  | nil => rfl
  | cons x xs ih =>
    rw [List.map_cons, h x (List.mem_cons_self x xs),
      ih (fun y hy => h y (List.mem_cons_of_mem x hy))]

theorem foldl_const {α β : Type} (f : α → β → α) (a : α) (l : List β)
    (h : ∀ e ∈ l, f a e = a) : l.foldl f a = a := by
  induction l with
  | nil => rfl
  | cons x xs ih =>
    rw [List.foldl_cons, h x (List.mem_cons_self x xs)]
    exact ih (fun e he => h e (List.mem_cons_of_mem x he))

theorem review_set_status_self (r : Review) (st : String) (h : r.status = st) :
    ({ r with status := st } : Review) = r := by
  cases r
  simp only at h
  subst h
  rfl

theorem setReviewStatus_id (db : DB) (x : Nat) (st : String)
    (h : ∀ r ∈ db.productReviews, r.status = st) :
    setReviewStatus db x st = db := by
  unfold setReviewStatus mapReview
  have : db.productReviews.map (fun r => if r.id == x then { r with status := st } else r) =
      db.productReviews := by
    apply map_id_of_mem
    intro r hr
    by_cases hx : (r.id == x) = true
    · rw [if_pos hx]
      exact review_set_status_self r st (h r hr)
    · rw [if_neg hx]
  rw [this]

theorem updateSyndicatedReviewsStatus_id (db : DB) (x : Nat) (st : String)
    (h : ∀ r ∈ db.productReviews, r.status = st) :
    updateSyndicatedReviewsStatus db x st = db := by
  unfold updateSyndicatedReviewsStatus
  exact foldl_const _ db _ (fun e _ => setReviewStatus_id db e.syndicatedReviewId st h)

theorem copyFieldsFrom_mkCopy (orig : Review) (bn : String) (rid : Nat) (t : String) (n : Nat) :
    copyFieldsFrom orig (mkCopy orig bn rid t n) = mkCopy orig bn rid t n := rfl

theorem mkBrs_fields (bundle : ReviewBundle) (rid : Nat) (origPN : String) :
    ∀ (ts : List String) (n : Nat), ∀ br ∈ mkBrs bundle rid origPN ts n,
      br.reviewId = rid ∧ br.bundleProductId = bundle.bundleProductId ∧
        br.productId ∈ ts ∧ ¬(br.productId == origPN) = true := by
  intro ts
  induction ts with
  | nil => intro n br hbr; simp [mkBrs] at hbr
  | cons t ts ih =>
    intro n br hbr
    by_cases h : (t == origPN) = true
    · rw [mkBrs, if_pos h] at hbr
      obtain ⟨h1, h2, h3, h4⟩ := ih n br hbr
      exact ⟨h1, h2, List.mem_cons_of_mem t h3, h4⟩
    · rw [mkBrs, if_neg h] at hbr
      rcases List.mem_cons.mp hbr with h1 | h1
      · subst h1
        exact ⟨rfl, rfl, List.mem_cons_self t ts, h⟩
      · obtain ⟨h1, h2, h3, h4⟩ := ih (n + 3) br h1
        exact ⟨h1, h2, List.mem_cons_of_mem t h3, h4⟩

theorem mkSyns_ne_nil (rid bid : Nat) (origPN : String) :
    ∀ (ts : List String) (n : Nat), ts.any (fun t => !(t == origPN)) = true →
      mkSyns rid bid origPN ts n ≠ [] := by
  intro ts
  induction ts with
  | nil => intro n h; simp at h
  | cons t ts ih =>
    intro n h
    rw [List.any_cons, Bool.or_eq_true] at h
    by_cases ht : (t == origPN) = true
    · rw [mkSyns, if_pos ht]
      rcases h with h | h
      · rw [ht] at h; simp at h
      · exact ih n h
    · rw [mkSyns, if_neg ht]
      exact List.cons_ne_nil _ _

theorem filter_all_true {α : Type} (p : α → Bool) (l : List α)
    (h : ∀ x ∈ l, p x = true) : l.filter p = l := by
  induction l with
  | nil => rfl
  | cons x xs ih =>
    rw [List.filter_cons, h x (List.mem_cons_self x xs)]
    simp only [if_true]
    rw [ih (fun y hy => h y (List.mem_cons_of_mem x hy))]

theorem removeFold_spec (orig : Review) (bundle : ReviewBundle) (rid bid : Nat) (origPN : String) :
    ∀ (ts : List String) (n : Nat) (pre : List Review) (brs0 : List BundleReview)
      (spre : List ReviewSyndication) (bundles : List ReviewBundle) (nid : Nat),
      ts.Nodup →
      (∀ r ∈ pre, r.id < n) →
      (∀ x ∈ brs0, ¬(x.reviewId = rid ∧ x.productId ∈ ts)) →
      (∀ s ∈ spre, s.id < n) →
      (mkSyns rid bid origPN ts n).foldl (removeEntry rid)
        ⟨pre ++ mkCopies orig bundle.name rid origPN ts n,
         brs0 ++ mkBrs bundle rid origPN ts n,
         spre ++ mkSyns rid bid origPN ts n,
         bundles, nid⟩ = ⟨pre, brs0, spre, bundles, nid⟩ := by
  intro ts
  induction ts with
  | nil =>
    intro n pre brs0 spre bundles nid _ _ _ _
    simp [mkCopies, mkBrs, mkSyns]
  | cons t ts ih =>
    intro n pre brs0 spre bundles nid hnd hpre hbrs0 hspre
    have hnd' := List.nodup_cons.mp hnd
    by_cases ht : (t == origPN) = true
    · rw [mkCopies, if_pos ht, mkBrs, if_pos ht, mkSyns, if_pos ht]
      exact ih n pre brs0 spre bundles nid hnd'.2 hpre
        (fun x hx hc => hbrs0 x hx ⟨hc.1, List.mem_cons_of_mem t hc.2⟩) hspre
    · rw [mkCopies, if_neg ht, mkBrs, if_neg ht, mkSyns, if_neg ht]
      rw [List.foldl_cons]
      have hrev : (pre ++ (mkCopy orig bundle.name rid t n ::
            mkCopies orig bundle.name rid origPN ts (n + 3))).filter
            (fun r => !(r.id == (mkSyn rid bid t n).syndicatedReviewId)) =
          pre ++ mkCopies orig bundle.name rid origPN ts (n + 3) := by
        rw [List.filter_append, List.filter_cons]
        have hc : (!((mkCopy orig bundle.name rid t n).id ==
            (mkSyn rid bid t n).syndicatedReviewId)) = false := by
          simp [mkCopy, mkSyn]
        rw [hc]
        simp only [if_neg Bool.false_ne_true]
        rw [filter_all_true _ pre (fun r hr => by
            simp [mkSyn]
            exact Nat.ne_of_lt (hpre r hr)),
          filter_all_true _ _ (fun r hr => by
            simp [mkSyn]
            have := mkCopies_id_ge orig bundle.name rid origPN ts (n + 3) r hr
            omega)]
      have hbr : (brs0 ++ (mkBr bundle rid t n ::
            mkBrs bundle rid origPN ts (n + 3))).filter
            (fun x => !(x.reviewId == rid && x.productId == t)) =
          brs0 ++ mkBrs bundle rid origPN ts (n + 3) := by
        rw [List.filter_append, List.filter_cons]
        have hc : (!((mkBr bundle rid t n).reviewId == rid &&
            (mkBr bundle rid t n).productId == t)) = false := by
          simp [mkBr]
        rw [hc]
        simp only [if_neg Bool.false_ne_true]
        rw [filter_all_true _ brs0 (fun x hx => by
            cases h1 : (x.reviewId == rid) with
            | false => simp [h1]
            | true =>
              cases h2 : (x.productId == t) with
              | false => simp [h1, h2]
              | true =>
                exact absurd ⟨beq_iff_eq.mp h1,
                  by rw [beq_iff_eq.mp h2]; exact List.mem_cons_self t ts⟩ (hbrs0 x hx)),
          filter_all_true _ _ (fun x hx => by
            obtain ⟨_, _, h3, _⟩ := mkBrs_fields bundle rid origPN ts (n + 3) x hx
            cases h2 : (x.productId == t) with
            | false => simp [h2]
            | true =>
              have h4 : t ∈ ts := by rw [← beq_iff_eq.mp h2]; exact h3
              exact absurd h4 hnd'.1)]
      have hsy : (spre ++ (mkSyn rid bid t n ::
            mkSyns rid bid origPN ts (n + 3))).filter
            (fun s => !(s.id == (mkSyn rid bid t n).id)) =
          spre ++ mkSyns rid bid origPN ts (n + 3) := by
        rw [List.filter_append, List.filter_cons]
        have hc : (!((mkSyn rid bid t n).id == (mkSyn rid bid t n).id)) = false := by
          simp
        rw [hc]
        simp only [if_neg Bool.false_ne_true]
        rw [filter_all_true _ spre (fun s hs => by
            simp [mkSyn]
            have := hspre s hs
            omega),
          filter_all_true _ _ (fun s hs => by
            simp [mkSyn]
            have := mkSyns_id_ge rid bid origPN ts (n + 3) s hs
            omega)]
      have hstep : removeEntry rid
          ⟨pre ++ (mkCopy orig bundle.name rid t n ::
             mkCopies orig bundle.name rid origPN ts (n + 3)),
           brs0 ++ (mkBr bundle rid t n :: mkBrs bundle rid origPN ts (n + 3)),
           spre ++ (mkSyn rid bid t n :: mkSyns rid bid origPN ts (n + 3)),
           bundles, nid⟩ (mkSyn rid bid t n) =
          ⟨pre ++ mkCopies orig bundle.name rid origPN ts (n + 3),
           brs0 ++ mkBrs bundle rid origPN ts (n + 3),
           spre ++ mkSyns rid bid origPN ts (n + 3),
           bundles, nid⟩ := by
        unfold removeEntry
        simp only
        rw [hrev, hsy]
        have : (mkSyn rid bid t n).productId = t := rfl
        rw [this, hbr]
      rw [hstep]
      exact ih (n + 3) pre brs0 spre bundles nid hnd'.2
        (fun r hr => Nat.lt_of_lt_of_le (hpre r hr) (Nat.le_add_right n 3))
        (fun x hx hc => hbrs0 x hx ⟨hc.1, List.mem_cons_of_mem t hc.2⟩)
        (fun s hs => Nat.lt_of_lt_of_le (hspre s hs) (Nat.le_add_right n 3))

/-- Running the per-target loop again over a store that already holds the
copies and links of a first pass finds every link and rewrites every copy
with its own field values: the store is unchanged. -/
theorem resyndFold_id (bundle : ReviewBundle) (orig : Review) (origPN : String) (rid bid : Nat) :
    ∀ (ts : List String) (n : Nat) (pre : List Review) (brs : List BundleReview)
      (spre : List ReviewSyndication) (bundles : List ReviewBundle) (nid : Nat),
      ts.Nodup →
      (∀ r ∈ pre, r.id < n) →
      (∀ s ∈ spre, ¬(s.originalReviewId = rid ∧ s.productId ∈ ts)) →
      ts.foldl (syndicateStep bundle orig origPN rid bid)
        ⟨pre ++ mkCopies orig bundle.name rid origPN ts n,
         brs,
         spre ++ mkSyns rid bid origPN ts n,
         bundles, nid⟩ =
      ⟨pre ++ mkCopies orig bundle.name rid origPN ts n,
       brs,
       spre ++ mkSyns rid bid origPN ts n,
       bundles, nid⟩ := by
  intro ts
  induction ts with
  | nil => intro n pre brs spre bundles nid _ _ _; rfl
  | cons t ts ih =>
    intro n pre brs spre bundles nid hnd hpre hspre
    have hnd' := List.nodup_cons.mp hnd
    rw [List.foldl_cons]
    by_cases ht : (t == origPN) = true
    · have hstep : syndicateStep bundle orig origPN rid bid
          ⟨pre ++ mkCopies orig bundle.name rid origPN (t :: ts) n,
           brs, spre ++ mkSyns rid bid origPN (t :: ts) n, bundles, nid⟩ t =
          ⟨pre ++ mkCopies orig bundle.name rid origPN (t :: ts) n,
           brs, spre ++ mkSyns rid bid origPN (t :: ts) n, bundles, nid⟩ := by
        unfold syndicateStep
        rw [if_pos ht]
      rw [hstep]
      rw [mkCopies, if_pos ht, mkSyns, if_pos ht]
      exact ih n pre brs spre bundles nid hnd'.2 hpre
        (fun s hs hc => hspre s hs ⟨hc.1, List.mem_cons_of_mem t hc.2⟩)
    · rw [mkCopies, if_neg ht, mkSyns, if_neg ht]
      have hfind : (spre ++ (mkSyn rid bid t n :: mkSyns rid bid origPN ts (n + 3))).find?
          (fun s => s.originalReviewId == rid && s.productId == t) =
          some (mkSyn rid bid t n) := by
        rw [find_append_none _ spre _ (List.find?_eq_none.mpr (fun s hs hc => by
          rw [Bool.and_eq_true, beq_iff_eq, beq_iff_eq] at hc
          exact hspre s hs ⟨hc.1, by rw [hc.2]; exact List.mem_cons_self t ts⟩))]
        rw [List.find?_cons_of_pos]
        simp [mkSyn]
      have hmap : (pre ++ (mkCopy orig bundle.name rid t n ::
            mkCopies orig bundle.name rid origPN ts (n + 3))).map
            (fun r => if r.id == (mkSyn rid bid t n).syndicatedReviewId then
              copyFieldsFrom orig r else r) =
          pre ++ (mkCopy orig bundle.name rid t n ::
            mkCopies orig bundle.name rid origPN ts (n + 3)) := by
        apply map_id_of_mem
        intro r hr
        rcases List.mem_append.mp hr with hr | hr
        · rw [if_neg]
          simp [mkSyn]
          exact Nat.ne_of_lt (hpre r hr)
        · rcases List.mem_cons.mp hr with hr | hr
          · subst hr
            rw [if_pos (by simp [mkCopy, mkSyn])]
            exact copyFieldsFrom_mkCopy orig bundle.name rid t n
          · rw [if_neg]
            simp [mkSyn]
            have := mkCopies_id_ge orig bundle.name rid origPN ts (n + 3) r hr
            omega
      have hstep : syndicateStep bundle orig origPN rid bid
          ⟨pre ++ (mkCopy orig bundle.name rid t n ::
             mkCopies orig bundle.name rid origPN ts (n + 3)),
           brs,
           spre ++ (mkSyn rid bid t n :: mkSyns rid bid origPN ts (n + 3)),
           bundles, nid⟩ t =
          ⟨pre ++ (mkCopy orig bundle.name rid t n ::
             mkCopies orig bundle.name rid origPN ts (n + 3)),
           brs,
           spre ++ (mkSyn rid bid t n :: mkSyns rid bid origPN ts (n + 3)),
           bundles, nid⟩ := by
        unfold syndicateStep
        rw [if_neg ht]
        simp only [hfind]
        unfold mapReview
        simp only
        rw [hmap]
      rw [hstep]
      have hassoc1 : pre ++ (mkCopy orig bundle.name rid t n ::
          mkCopies orig bundle.name rid origPN ts (n + 3)) =
          (pre ++ [mkCopy orig bundle.name rid t n]) ++
            mkCopies orig bundle.name rid origPN ts (n + 3) := by
        rw [List.append_assoc, List.singleton_append]
      have hassoc2 : spre ++ (mkSyn rid bid t n :: mkSyns rid bid origPN ts (n + 3)) =
          (spre ++ [mkSyn rid bid t n]) ++ mkSyns rid bid origPN ts (n + 3) := by
        rw [List.append_assoc, List.singleton_append]
      rw [hassoc1, hassoc2]
      exact ih (n + 3) (pre ++ [mkCopy orig bundle.name rid t n]) brs
        (spre ++ [mkSyn rid bid t n]) bundles nid hnd'.2
        (fun r hr => by
          rcases List.mem_append.mp hr with hr | hr
          · exact Nat.lt_of_lt_of_le (hpre r hr) (Nat.le_add_right n 3)
          · rw [List.mem_singleton] at hr
            subst hr
            exact Nat.lt_add_of_pos_right (by omega))
        (fun s hs hc => by
          rcases List.mem_append.mp hs with hs | hs
          · exact hspre s hs ⟨hc.1, List.mem_cons_of_mem t hc.2⟩
          · rw [List.mem_singleton] at hs
            subst hs
            exact hnd'.1 hc.2)

theorem filter_all_false {α : Type} (p : α → Bool) (l : List α)
    (h : ∀ x ∈ l, p x = false) : l.filter p = [] := by
  induction l with
  | nil => rfl
  | cons x xs ih =>
    rw [List.filter_cons, h x (List.mem_cons_self x xs)]
    simp only [Bool.false_eq_true, if_false]
    exact ih (fun y hy => h y (List.mem_cons_of_mem x hy))

theorem filterMap_nil_of {α β : Type} (f : α → Option β) (l : List α)
    (h : ∀ x ∈ l, f x = none) : l.filterMap f = [] := by
  induction l with
  | nil => rfl
  | cons x xs ih =>
    rw [List.filterMap_cons, h x (List.mem_cons_self x xs)]
    exact ih (fun y hy => h y (List.mem_cons_of_mem x hy))

theorem mkBrs_filterMap (bundle : ReviewBundle) (rid : Nat) (origPN : String)
    (g : BundleReview → Option (String × Int)) (p : String) (e : String × Int)
    (hg : ∀ (t : String) (m : Nat), g (mkBr bundle rid t m) = if t == p then some e else none) :
    ∀ (ts : List String) (n : Nat),
      (mkBrs bundle rid origPN ts n).filterMap g =
        ((ts.filter (fun t => !(t == origPN))).filter (fun t => t == p)).map (fun _ => e) := by
  intro ts
  induction ts with
  | nil => intro n; simp [mkBrs]
  | cons t ts ih =>
    intro n
    by_cases ht : (t == origPN) = true
    · rw [mkBrs, if_pos ht, List.filter_cons_of_neg (by simp [ht]), ih]
    · rw [mkBrs, if_neg ht, List.filter_cons_of_pos (by simp [ht])]
      by_cases hp : (t == p) = true
      · rw [List.filterMap_cons_some (show g (mkBr bundle rid t n) = some e by
            rw [hg t n, if_pos hp])]
        rw [List.filter_cons]
        simp only [hp, if_true, List.map_cons, ih (n + 3)]
      · rw [List.filterMap_cons_none (show g (mkBr bundle rid t n) = none by
            rw [hg t n, if_neg hp])]
        rw [List.filter_cons]
        simp [hp, ih (n + 3)]

theorem filter_eq_singleton_of_nodup (l : List String) (p : String)
    (hnd : l.Nodup) (hp : p ∈ l) : l.filter (fun t => t == p) = [p] := by
  induction l with
  | nil => simp at hp
  | cons x xs ih =>
    have hnd' := List.nodup_cons.mp hnd
    rcases List.mem_cons.mp hp with h | h
    · subst h
      rw [List.filter_cons_of_pos (by simp)]
      rw [filter_all_false _ xs (fun y hy => by
        rw [beq_eq_false_iff_ne]
        intro hxy
        exact hnd'.1 (hxy ▸ hy))]
    · rw [List.filter_cons_of_neg (by
        rw [Bool.not_eq_true, beq_eq_false_iff_ne]
        intro hxp
        exact hnd'.1 (hxp ▸ h))]
      exact ih hnd'.2 h

theorem ratingMap_of_entries (db : DB) (p : String) (k : String) (v : Int)
    (h : directEntries db p ++ syndicatedEntries db p = [(k, v)]) :
    ratingMap db p = [(k, v)] := by
  unfold ratingMap
  rw [h]
  rfl

theorem computeAggregate_single (db : DB) (p : String) (k : String) (v : Int)
    (h : ratingMap db p = [(k, v)]) : computeAggregate db p = ⟨1, (v : Rat)⟩ := by
  unfold computeAggregate
  rw [h]
  simp [ratingSum]

/-- The state produced by a first syndication pass over a clean scenario
store. -/
theorem syndicate_scenario_eq (R : Review) (b : ReviewBundle) (A : String)
    (ps : List String) (rid n : Nat)
    (hRid : R.id = rid) (hRprod : R.productId = A) (hAnorm : getNumericProductId A = A)
    (hsplit : csvSplit b.productIds = ps) (hNodup : ps.Nodup) :
    syndicateReviewToBundle (scenarioDB R b n) rid b.id =
      ⟨R :: mkCopies R b.name rid A ps n,
       mkBrs b rid A ps n,
       mkSyns rid b.id A ps n,
       [b], mkNext A ps n⟩ := by
  have hfb : ((scenarioDB R b n).reviewBundles.find? (fun x => x.id == b.id)) = some b := by
    unfold scenarioDB
    exact List.find?_cons_of_pos _ (by simp)
  have hfr : findReview (scenarioDB R b n) rid = some R := by
    unfold findReview scenarioDB
    exact List.find?_cons_of_pos _ (by simp [hRid])
  simp only [syndicateReviewToBundle, hfb, hfr]
  rw [hsplit, hRprod, hAnorm]
  rw [show (scenarioDB R b n) = ⟨[R], [], [], [b], n⟩ from rfl]
  rw [syndFold_spec b R A rid b.id ps ⟨[R], [], [], [b], n⟩ (by intro s hs; simp at hs) hNodup]
  simp

/-- After the syndication pass, every bundle member product aggregates the
review exactly once: count 1 and mean equal to its rating. -/
theorem aggregate_after_syndication (R : Review) (b : ReviewBundle) (A : String)
    (ps : List String) (rid n : Nat)
    (hRid : R.id = rid) (hRprod : R.productId = A) (hRstat : R.status = "approved")
    (hRorig : R.isBundleReview = false) (hNodup : ps.Nodup) :
    ∀ p ∈ ps,
      computeAggregate
        ⟨R :: mkCopies R b.name rid A ps n,
         mkBrs b rid A ps n,
         mkSyns rid b.id A ps n,
         [b], mkNext A ps n⟩ p = ⟨1, (R.rating : Rat)⟩ := by
  intro p hp
  by_cases hap : (A == p) = true
  · -- the review's own product: one direct entry, no syndicated entry
    apply computeAggregate_single _ _ ("direct-" ++ toString R.id) R.rating
    apply ratingMap_of_entries
    have hdir : directEntries
        ⟨R :: mkCopies R b.name rid A ps n, mkBrs b rid A ps n,
         mkSyns rid b.id A ps n, [b], mkNext A ps n⟩ p =
        [("direct-" ++ toString R.id, R.rating)] := by
      unfold directEntries
      simp only
      rw [List.filter_cons_of_pos (by simp [hRprod, hRstat, hRorig, hap])]
      rw [filter_all_false _ _ (fun c hc => by
        rw [mkCopies_isBundle R b.name rid A ps n c hc]
        simp)]
      rfl
    have hsyn : syndicatedEntries
        ⟨R :: mkCopies R b.name rid A ps n, mkBrs b rid A ps n,
         mkSyns rid b.id A ps n, [b], mkNext A ps n⟩ p = [] := by
      unfold syndicatedEntries
      apply filterMap_nil_of
      intro br hbr
      obtain ⟨_, _, _, h4⟩ := mkBrs_fields b rid A ps n br hbr
      rw [if_neg]
      rw [← beq_iff_eq.mp hap]
      exact h4
    rw [hdir, hsyn]
    rfl
  · -- a sibling product: no direct entry, exactly one syndicated entry
    apply computeAggregate_single _ _
      ("syndicated-" ++ b.bundleProductId ++ "-" ++ toString rid) R.rating
    apply ratingMap_of_entries
    have hdir : directEntries
        ⟨R :: mkCopies R b.name rid A ps n, mkBrs b rid A ps n,
         mkSyns rid b.id A ps n, [b], mkNext A ps n⟩ p = [] := by
      unfold directEntries
      simp only
      rw [List.filter_cons_of_neg (by simp [hRprod, hap])]
      rw [filter_all_false _ _ (fun c hc => by
        rw [mkCopies_isBundle R b.name rid A ps n c hc]
        simp)]
      rfl
    have hsyn : syndicatedEntries
        ⟨R :: mkCopies R b.name rid A ps n, mkBrs b rid A ps n,
         mkSyns rid b.id A ps n, [b], mkNext A ps n⟩ p =
        [("syndicated-" ++ b.bundleProductId ++ "-" ++ toString rid, R.rating)] := by
      unfold syndicatedEntries
      simp only
      rw [mkBrs_filterMap b rid A _ p
        ("syndicated-" ++ b.bundleProductId ++ "-" ++ toString rid, R.rating)
        (fun t m => by
          have hfind : findReview
              ⟨R :: mkCopies R b.name rid A ps n, mkBrs b rid A ps n,
               mkSyns rid b.id A ps n, [b], mkNext A ps n⟩ rid = some R := by
            unfold findReview
            exact List.find?_cons_of_pos _ (by simp [hRid])
          by_cases htp : (t == p) = true
          · simp only [mkBr, htp, if_true]
            rw [hfind]
            simp [hRstat]
          · simp [mkBr, htp])
        ps n]
      rw [filter_eq_singleton_of_nodup _ p (hNodup.filter _)
        (List.mem_filter.mpr ⟨hp, by
          rw [Bool.not_eq_true', beq_eq_false_iff_ne]
          intro hpa
          exact hap (beq_iff_eq.mpr hpa.symm)⟩)]
      rfl
    rw [hdir, hsyn]
    rfl

theorem ratingMap_nil (db : DB) (p : String)
    (h : directEntries db p ++ syndicatedEntries db p = []) : ratingMap db p = [] := by
  unfold ratingMap
  rw [h]
  rfl

theorem computeAggregate_nil (db : DB) (p : String) (h : ratingMap db p = []) :
    computeAggregate db p = ⟨0, 0⟩ := by
  unfold computeAggregate
  rw [h]
  simp [ratingSum]

theorem mkCopies_length (orig : Review) (bn : String) (rid : Nat) (origPN : String) :
    ∀ (ts : List String) (n : Nat),
      (mkCopies orig bn rid origPN ts n).length =
        (ts.filter (fun t => !(t == origPN))).length := by
  intro ts
  induction ts with
  | nil => intro n; rfl
  | cons t ts ih =>
    intro n
    by_cases ht : (t == origPN) = true
    · rw [mkCopies, if_pos ht, List.filter_cons_of_neg (by simp [ht]), ih]
    · rw [mkCopies, if_neg ht, List.filter_cons_of_pos (by simp [ht]),
        List.length_cons, List.length_cons, ih]

theorem mkCopies_productId_mem (orig : Review) (bn : String) (rid : Nat) (origPN : String) :
    ∀ (ts : List String) (n : Nat), ∀ r ∈ mkCopies orig bn rid origPN ts n,
      r.productId ∈ ts := by
  intro ts
  induction ts with
  | nil => intro n r hr; simp [mkCopies] at hr
  | cons t ts ih =>
    intro n r hr
    by_cases h : (t == origPN) = true
    · rw [mkCopies, if_pos h] at hr
      exact List.mem_cons_of_mem t (ih n r hr)
    · rw [mkCopies, if_neg h] at hr
      rcases List.mem_cons.mp hr with h1 | h1
      · subst h1
        exact List.mem_cons_self t ts
      · exact List.mem_cons_of_mem t (ih (n + 3) r h1)

/-- Each copy row produced by a syndication pass is aligned with the link
row created in the same loop iteration: looking the copy's id up among the
links by syndicatedReviewId recovers the original review id. -/
theorem mkSyns_find_copy (orig : Review) (bn : String) (rid bid : Nat) (origPN : String) :
    ∀ (ts : List String) (n : Nat), ∀ c ∈ mkCopies orig bn rid origPN ts n,
      ((mkSyns rid bid origPN ts n).find? (fun s => s.syndicatedReviewId == c.id)).map
        (fun s => s.originalReviewId) = some rid := by
  intro ts
  induction ts with
  | nil => intro n c hc; simp [mkCopies] at hc
  | cons t ts ih =>
    intro n c hc
    by_cases h : (t == origPN) = true
    · rw [mkCopies, if_pos h] at hc
      rw [mkSyns, if_pos h]
      exact ih n c hc
    · rw [mkCopies, if_neg h] at hc
      rw [mkSyns, if_neg h]
      rcases List.mem_cons.mp hc with h1 | h1
      · subst h1
        rw [List.find?_cons_of_pos _ (by simp [mkSyn, mkCopy])]
        rfl
      · rw [List.find?_cons_of_neg _ (by
          have hge := mkCopies_id_ge orig bn rid origPN ts (n + 3) c h1
          simp [mkSyn]
          omega)]
        exact ih (n + 3) c h1

/-! ## Claims -/

/-- C1: after an approved review owned by one bundle member has been
syndicated to the other members, computeAggregate on each member product
counts that review (or its copy) exactly once: every member reports
count 1 and mean equal to the review's rating, the direct query having
excluded the copies and the two key namespaces being disjoint. -/
theorem c1_no_double_counting (R : Review) (b : ReviewBundle) (A : String)
    (ps : List String) (rid n : Nat)
    (hRid : R.id = rid) (hRprod : R.productId = A) (hRstat : R.status = "approved")
    (hRorig : R.isBundleReview = false) (hAnorm : getNumericProductId A = A)
    (hsplit : csvSplit b.productIds = ps) (hNodup : ps.Nodup) :
    ∀ p ∈ ps,
      computeAggregate (syndicateReviewToBundle (scenarioDB R b n) rid b.id) p =
        ⟨1, (R.rating : Rat)⟩ := by
  rw [syndicate_scenario_eq R b A ps rid n hRid hRprod hAnorm hsplit hNodup]
  exact aggregate_after_syndication R b A ps rid n hRid hRprod hRstat hRorig hNodup

theorem c1_no_double_counting_witness :
    computeAggregate (syndicateReviewToBundle (scenarioDB wOrig wBundle 50) 1 wBundle.id) "2" =
      ⟨1, (wOrig.rating : Rat)⟩ :=
  c1_no_double_counting wOrig wBundle "1" ["1", "2", "3"] 1 50 rfl rfl rfl rfl (by decide)
    (by decide) (by decide) "2" (by decide)

/-- C4: syndication is idempotent on a first-approval state: running
syndicateReviewToBundle a second time updates every existing copy in place
with the original's own field values and leaves the store exactly equal;
and the pass has produced exactly one SyndicationLink per non-own target
product, with no duplicates. -/
theorem c4_idempotent_syndication (R : Review) (b : ReviewBundle) (A : String)
    (ps : List String) (rid n : Nat)
    (hRid : R.id = rid) (hRprod : R.productId = A) (hAnorm : getNumericProductId A = A)
    (hsplit : csvSplit b.productIds = ps) (hNodup : ps.Nodup) (hrid : rid < n) :
    syndicateReviewToBundle (syndicateReviewToBundle (scenarioDB R b n) rid b.id) rid b.id =
      syndicateReviewToBundle (scenarioDB R b n) rid b.id ∧
    ((syndicateReviewToBundle (scenarioDB R b n) rid b.id).reviewSyndications.filter
        (fun s => s.originalReviewId == rid)).map (fun s => s.productId) =
      ps.filter (fun t => !(t == A)) ∧
    (ps.filter (fun t => !(t == A))).Nodup := by
  rw [syndicate_scenario_eq R b A ps rid n hRid hRprod hAnorm hsplit hNodup]
  refine ⟨?_, ?_, hNodup.filter _⟩
  · have hfb : (([b] : List ReviewBundle).find? (fun x => x.id == b.id)) = some b :=
      List.find?_cons_of_pos _ (by simp)
    have hfr : findReview
        ⟨R :: mkCopies R b.name rid A ps n, mkBrs b rid A ps n,
         mkSyns rid b.id A ps n, [b], mkNext A ps n⟩ rid = some R := by
      unfold findReview
      exact List.find?_cons_of_pos _ (by simp [hRid])
    simp only [syndicateReviewToBundle, hfb, hfr]
    rw [hsplit, hRprod, hAnorm]
    have hshape : (R :: mkCopies R b.name rid A ps n) =
        [R] ++ mkCopies R b.name rid A ps n := by
      rw [List.singleton_append]
    have hshape2 : mkSyns rid b.id A ps n =
        ([] : List ReviewSyndication) ++ mkSyns rid b.id A ps n := by
      rw [List.nil_append]
    rw [hshape, hshape2]
    rw [resyndFold_id b R A rid b.id ps n [R] (mkBrs b rid A ps n) [] [b] (mkNext A ps n)
      hNodup
      (fun r hr => by rw [List.mem_singleton] at hr; subst hr; rw [hRid]; exact hrid)
      (fun s hs => by simp at hs)]
  · rw [filter_all_true _ _ (fun s hs =>
      beq_iff_eq.mpr (mkSyns_orig rid b.id A ps n s hs))]
    exact mkSyns_map_productId rid b.id A ps n

theorem c4_idempotent_syndication_witness :
    syndicateReviewToBundle (syndicateReviewToBundle (scenarioDB wOrig wBundle 50) 1 wBundle.id)
        1 wBundle.id =
      syndicateReviewToBundle (scenarioDB wOrig wBundle 50) 1 wBundle.id :=
  (c4_idempotent_syndication wOrig wBundle "1" ["1", "2", "3"] 1 50 rfl rfl (by decide)
    (by decide) (by decide) (by decide)).1

/-- C3 counterexample: a syndicated copy whose own status has been changed
to rejected still contributes to the target product's aggregate, because
the aggregation joins the link row to the ORIGINAL review's status, not
the copy's: the copy on product 2 is rejected, yet product 2 reports
count 1. -/
theorem c3_counterexample :
    (findReview (c3DB "approved" "rejected" 5) 2).map (fun r => r.status) = some "rejected" ∧
    computeAggregate (c3DB "approved" "rejected" 5) "2" = ⟨1, 5⟩ := by
  constructor
  · decide
  · have h := computeAggregate_single (c3DB "approved" "rejected" 5) "2"
      ("syndicated-" ++ "99" ++ "-" ++ toString 1) 5 (by decide)
    rw [h, show ((5 : Int) : Rat) = (5 : Rat) by norm_num]

/-- C3 (amended): computeAggregate includes a syndicated entry for a
product precisely when the ORIGINAL review referenced by the link row is
approved; the copy's own status is irrelevant to the aggregate in both
directions. -/
theorem c3_amended_syndicated_status (s1 s2 : String) (rating : Int) :
    computeAggregate (c3DB s1 s2 rating) "2" =
      if s1 == "approved" then ⟨1, (rating : Rat)⟩ else ⟨0, 0⟩ := by
  by_cases h : (s1 == "approved") = true
  · rw [if_pos h]
    have hs1 : s1 = "approved" := beq_iff_eq.mp h
    subst hs1
    apply computeAggregate_single _ _ ("syndicated-" ++ "99" ++ "-" ++ toString 1) rating
    apply ratingMap_of_entries
    unfold directEntries syndicatedEntries findReview c3DB
    simp +decide [List.filter_cons, List.filterMap_cons, List.find?_cons]
  · rw [if_neg h]
    have h' : ¬(s1 = "approved") := fun hh => h (beq_iff_eq.mpr hh)
    apply computeAggregate_nil
    apply ratingMap_nil
    unfold directEntries syndicatedEntries findReview c3DB
    simp +decide [List.filter_cons, List.filterMap_cons, List.find?_cons, h']

/-- C8: the aggregate's mean times its count equals the sum of the
deduplicated entries' ratings (so mean = sum/count whenever count > 0);
three approved direct reviews rated 3, 4, 5 on a product yield
count 3 and mean 4; a product with no attributable approved review yields
count 0 and mean 0. -/
theorem c8_aggregate_math :
    (∀ (db : DB) (p : String),
        (computeAggregate db p).mean * ((computeAggregate db p).count : Rat) =
          ((ratingSum (ratingMap db p) : Int) : Rat)) ∧
    (∀ (p : String) (n : Nat),
        computeAggregate
          ⟨[⟨1, p, 3, "a", none, none, "c", "approved", false, none, []⟩,
            ⟨2, p, 4, "a", none, none, "c", "approved", false, none, []⟩,
            ⟨3, p, 5, "a", none, none, "c", "approved", false, none, []⟩],
           [], [], [], n⟩ p = ⟨3, 4⟩) ∧
    (∀ (p : String) (n : Nat), computeAggregate ⟨[], [], [], [], n⟩ p = ⟨0, 0⟩) := by
  refine ⟨?_, ?_, ?_⟩
  · intro db p
    have hc : (computeAggregate db p).count = (ratingMap db p).length := rfl
    have hm : (computeAggregate db p).mean =
        (if (ratingMap db p).length > 0 then
          ((ratingSum (ratingMap db p) : Int) : Rat) / (((ratingMap db p).length : Nat) : Rat)
        else 0) := rfl
    rw [hc, hm]
    cases hz : (ratingMap db p).length with
    | zero =>
      rw [List.length_eq_zero.mp hz]
      simp [ratingSum]
    | succ k =>
      rw [if_pos (Nat.succ_pos k)]
      exact div_mul_cancel₀ _ (Nat.cast_ne_zero.mpr (Nat.succ_ne_zero k))
  · intro p n
    have hk12 : (("direct-" ++ toString (1 : Nat)) == ("direct-" ++ toString (2 : Nat))) =
        false := by decide
    have hk13 : (("direct-" ++ toString (1 : Nat)) == ("direct-" ++ toString (3 : Nat))) =
        false := by decide
    have hk23 : (("direct-" ++ toString (2 : Nat)) == ("direct-" ++ toString (3 : Nat))) =
        false := by decide
    unfold computeAggregate ratingMap directEntries syndicatedEntries
    simp [hk12, hk13, hk23, mapSet, ratingSum]
    norm_num
  · intro p n
    apply computeAggregate_nil
    apply ratingMap_nil
    unfold directEntries syndicatedEntries
    rfl

/-- C5: a delete event with scope bundle on ANY review row of the
post-syndication store cascades: whether the event targets the original
itself or one of its syndicated copies (the copy being resolved to the
original through the findOriginalReviewId reverse lookup), every copy,
every bundleReview join row, every link and the original row itself are
removed, and the aggregate of every former member product afterwards
excludes the review entirely (the scenario store ends empty, so every
product aggregates to zero). -/
theorem c5_cascading_delete (R : Review) (b : ReviewBundle) (A : String)
    (ps : List String) (rid n : Nat)
    (hRid : R.id = rid) (hRprod : R.productId = A)
    (hRorig : R.isBundleReview = false)
    (hsplit : csvSplit b.productIds = ps) (hNodup : ps.Nodup) (hrid : rid < n)
    (hA : A ∈ ps)
    (hnorm : ∀ t ∈ ps, getNumericProductId t = t)
    (hcont : ∀ t ∈ ps, strContains b.productIds t = true) :
    (∀ (tid : Nat) (r : Review),
      findReview (syndicateReviewToBundle (scenarioDB R b n) rid b.id) tid = some r →
      deleteAction (syndicateReviewToBundle (scenarioDB R b n) rid b.id) tid "bundle" =
        some (⟨[], [], [], [b], mkNext A ps n⟩,
          filterProductIds (jsSetDedup ([getNumericProductId r.productId] ++ ps)))) ∧
    (∀ p, computeAggregate ⟨[], [], [], [b], mkNext A ps n⟩ p = ⟨0, 0⟩) := by
  have hAnorm : getNumericProductId A = A := hnorm A hA
  rw [syndicate_scenario_eq R b A ps rid n hRid hRprod hAnorm hsplit hNodup]
  constructor
  · intro tid r hfr
    have hfr' : List.find? (fun x => x.id == tid)
        (R :: mkCopies R b.name rid A ps n) = some r := hfr
    have hmem : r ∈ R :: mkCopies R b.name rid A ps n :=
      List.mem_of_find?_eq_some hfr'
    have hp := List.find?_some hfr'
    have hid : r.id = tid := beq_iff_eq.mp hp
    have hpn : getNumericProductId r.productId ∈ ps := by
      rcases List.mem_cons.mp hmem with hR | hcpy
      · subst hR
        rw [hRprod, hAnorm]
        exact hA
      · have hm := mkCopies_productId_mem R b.name rid A ps n r hcpy
        rw [hnorm r.productId hm]
        exact hm
    have hbi : isReviewInBundle
        ⟨R :: mkCopies R b.name rid A ps n, mkBrs b rid A ps n,
         mkSyns rid b.id A ps n, [b], mkNext A ps n⟩ tid =
        ⟨true, some b.id, r.isBundleReview⟩ := by
      unfold isReviewInBundle
      rw [hfr]
      simp only
      have hfind : List.find?
          (fun bc => strContains bc.productIds (getNumericProductId r.productId))
          ([b] : List ReviewBundle) = some b :=
        List.find?_cons_of_pos _ (hcont _ hpn)
      rw [hfind]
    have hbc : ∀ σ : Bool, bundleConfigOf
        ⟨R :: mkCopies R b.name rid A ps n, mkBrs b rid A ps n,
         mkSyns rid b.id A ps n, [b], mkNext A ps n⟩
        (⟨true, some b.id, σ⟩ : BundleInfo) = some b := by
      intro σ
      unfold bundleConfigOf
      simp only [if_true]
      exact List.find?_cons_of_pos _ (by simp)
    have hrm : removeSyndicatedReviews
        ⟨R :: mkCopies R b.name rid A ps n, mkBrs b rid A ps n,
         mkSyns rid b.id A ps n, [b], mkNext A ps n⟩ rid =
        ⟨[R], [], [], [b], mkNext A ps n⟩ := by
      unfold removeSyndicatedReviews
      simp only
      rw [filter_all_true _ _ (fun s hs =>
        beq_iff_eq.mpr (mkSyns_orig rid b.id A ps n s hs))]
      rw [show (R :: mkCopies R b.name rid A ps n) =
        [R] ++ mkCopies R b.name rid A ps n from (List.singleton_append).symm]
      rw [show (mkBrs b rid A ps n) =
        ([] : List BundleReview) ++ mkBrs b rid A ps n from (List.nil_append _).symm]
      rw [show (mkSyns rid b.id A ps n) =
        ([] : List ReviewSyndication) ++ mkSyns rid b.id A ps n from (List.nil_append _).symm]
      exact removeFold_spec R b rid b.id A ps n [R] [] [] [b] (mkNext A ps n) hNodup
        (fun r hr => by rw [List.mem_singleton] at hr; subst hr; rw [hRid]; exact hrid)
        (fun x hx => by simp at hx)
        (fun s hs => by simp at hs)
    have hsrc : (("bundle" : String) == "bundle") = true := by decide
    have hfil : (List.filter (fun x => !(x.id == rid)) [R]) = [] := by
      rw [List.filter_cons_of_neg (by simp [hRid]), List.filter_nil]
    rcases List.mem_cons.mp hmem with hR | hcpy
    · -- the event targets the original review itself
      subst hR
      have htid : tid = rid := by rw [← hid]; exact hRid
      subst htid
      unfold deleteAction
      rw [hfr]
      simp only [hbi, hRorig, hbc]
      simp only [hsrc, eq_self_iff_true, if_true, Bool.false_eq_true, if_false]
      simp only [hrm]
      rw [hfil]
      rw [hsplit]
    · -- the event targets a copy: resolved to the original via the reverse lookup
      have hflag : r.isBundleReview = true :=
        mkCopies_isBundle R b.name rid A ps n r hcpy
      have horig : findOriginalReviewId
          ⟨R :: mkCopies R b.name rid A ps n, mkBrs b rid A ps n,
           mkSyns rid b.id A ps n, [b], mkNext A ps n⟩ tid = some rid := by
        show ((mkSyns rid b.id A ps n).find?
          (fun s => s.syndicatedReviewId == tid)).map
          (fun s => s.originalReviewId) = some rid
        rw [← hid]
        exact mkSyns_find_copy R b.name rid b.id A ps n r hcpy
      unfold deleteAction
      rw [hfr]
      simp only [hbi, hflag, hbc]
      simp only [hsrc, eq_self_iff_true, if_true]
      simp only [horig, hrm]
      rw [hfil]
      rw [hsplit]
  · intro p
    apply computeAggregate_nil
    apply ratingMap_nil
    rfl

theorem c5_cascading_delete_witness :
    deleteAction (syndicateReviewToBundle (scenarioDB wOrig wBundle 50) 1 wBundle.id)
        50 "bundle" =
      some (⟨[], [], [], [wBundle], mkNext "1" ["1", "2", "3"] 50⟩,
        filterProductIds (jsSetDedup
          ([getNumericProductId wCopy2.productId] ++ ["1", "2", "3"]))) :=
  (c5_cascading_delete wOrig wBundle "1" ["1", "2", "3"] 1 50 rfl rfl rfl (by decide)
    (by decide) (by decide) (by decide) (by decide) (by decide)).1 50 wCopy2 (by decide)

/-- C6: a status-change with scope individual mutates only the target
review row's status field: every other review row, the join rows, the
links and the bundles are untouched, and the re-aggregated product set is
exactly the target's own owning product.  This holds for every store, so
in particular for a syndicated copy: the original and the sibling copies
keep their prior status. -/
theorem c6_scope_isolation (db : DB) (rid : Nat) (r : Review)
    (hfr : findReview db rid = some r)
    (h1 : getNumericProductId r.productId ≠ "")
    (h2 : getNumericProductId r.productId ≠ "undefined") :
    changeStatusAction db rid "rejected" "individual" =
      some ({ db with productReviews := (db.productReviews.map
          (fun x => if x.id == rid then { x with status := "rejected" } else x)) },
        [getNumericProductId r.productId]) := by
  have hval : ((["pending", "approved", "rejected"] : List String).contains "rejected") = true := by
    decide
  have hb1 : (getNumericProductId r.productId == "") = false := beq_eq_false_iff_ne.mpr h1
  have hb2 : (getNumericProductId r.productId == "undefined") = false := beq_eq_false_iff_ne.mpr h2
  unfold changeStatusAction
  simp only [hval, Bool.not_true, Bool.false_eq_true, if_false, hfr]
  cases hbc : bundleConfigOf db (isReviewInBundle db rid) with
  | none =>
    simp [setReviewStatus, mapReview, jsSetDedup, dedupFirstAux, filterProductIds, hb1, hb2]
  | some bc =>
    simp [setReviewStatus, mapReview, jsSetDedup, dedupFirstAux, filterProductIds, hb1, hb2]

theorem c6_scope_isolation_witness :
    changeStatusAction wSynd 50 "rejected" "individual" =
      some ({ wSynd with productReviews := (wSynd.productReviews.map
          (fun x => if x.id == 50 then { x with status := "rejected" } else x)) },
        [getNumericProductId wCopy2.productId]) :=
  c6_scope_isolation wSynd 50 wCopy2 (by decide) (by decide) (by decide)

/-- C7 counterexample: an edit issued with scope individual on a review in
a two-product bundle re-aggregates and republishes BOTH bundle members,
not only the review's own owning product. -/
theorem c7_counterexample :
    getNumericProductId c7Review.productId = "1" ∧
    (editAction c7db 1 c7form "individual").1 = EditOutcome.success ∧
    (editAction c7db 1 c7form "individual").2.2 = ["1", "2"] := by
  refine ⟨by decide, by decide, by decide⟩

/-- C7 (amended): for a review resolving to a bundle, the set of products
re-aggregated and republished after a valid edit is the review's own
product together with every bundle member, for EVERY actionSource; with
scope bundle this matches the claim, with scope individual it does not
shrink to the own product. -/
theorem c7_amended_edit_reaggregation (db : DB) (rid : Nat) (f : EditForm)
    (src : String) (r : Review) (bc : ReviewBundle)
    (hfr : findReview db rid = some r)
    (hbc : bundleConfigOf db (isReviewInBundle db rid) = some bc)
    (ht : isBlankOpt f.title = false) (hco : isBlankOpt f.content = false)
    (hra : isBlankOpt f.rating = false) (hau : isBlankOpt f.author = false)
    (pr : Int) (hparse : jsParseInt (f.rating.getD "") = some pr)
    (hlo : ¬(pr < 1)) (hhi : ¬(pr > 5)) :
    ∃ db2, editAction db rid f src = (.success, db2,
      filterProductIds (jsSetDedup
        ([getNumericProductId r.productId] ++ csvSplit bc.productIds))) := by
  unfold editAction
  simp only [hfr, hbc, ht, hco, hra, hau, hparse, Bool.or_self, Bool.false_eq_true, if_false,
    decide_eq_false hlo, decide_eq_false hhi]
  exact ⟨_, rfl⟩

theorem c7_amended_edit_reaggregation_witness :
    ∃ db2, editAction c7db 1 c7form "bundle" = (.success, db2,
      filterProductIds (jsSetDedup
        ([getNumericProductId c7Review.productId] ++ csvSplit ("1,2" : String)))) :=
  c7_amended_edit_reaggregation c7db 1 c7form "bundle" c7Review ⟨10, "B", "99", "1,2"⟩
    (by decide) (by decide) (by decide) (by decide) (by decide) (by decide) 4 (by decide)
    (by decide) (by decide)

/-- C9: an edit whose form is invalid (missing or empty title, content,
rating or author, or a rating that does not parse into [1,5], such as 0 or
6) returns InvalidInput and performs no mutation at all: the store is
returned exactly as it was and no product is republished. -/
theorem c9_invalid_edit_no_mutation (db : DB) (rid : Nat) (f : EditForm) (src : String)
    (r : Review) (hfr : findReview db rid = some r)
    (hbad : invalidEditForm f = true) :
    editAction db rid f src = (.invalidInput, db, []) := by
  unfold editAction
  simp only [hfr]
  unfold invalidEditForm at hbad
  by_cases hb : (isBlankOpt f.title || isBlankOpt f.content || isBlankOpt f.rating ||
      isBlankOpt f.author) = true
  · simp only [hb, if_true]
  · rw [Bool.not_eq_true] at hb
    simp only [hb, Bool.false_eq_true, if_false]
    rw [hb, Bool.false_or] at hbad
    cases hp : jsParseInt (f.rating.getD "") with
    | none => simp only [hp]
    | some v =>
      rw [hp] at hbad
      have hbad2 : (decide (v < 1) || decide (v > 5)) = true := hbad
      simp only [hp, hbad2, if_true]

theorem c9_invalid_edit_no_mutation_witness :
    editAction w9db 1 w9form "individual" = (.invalidInput, w9db, []) :=
  c9_invalid_edit_no_mutation w9db 1 w9form "individual"
    ⟨1, "1", 5, "au", none, some "t", "c", "pending", false, none, []⟩
    (by decide) (by decide)

theorem countRunsAux_trimEnd : ∀ (l : List Char) (b : Bool),
    countRunsAux b (jsTrimEnd l) = countRunsAux b l := by
  intro l
  induction l with
  | nil => intro b; rfl
  | cons c rest ih =>
    intro b
    rw [jsTrimEnd]
    by_cases h : ((jsTrimEnd rest).isEmpty && wsChar c) = true
    · rw [if_pos h]
      rw [Bool.and_eq_true] at h
      have hrest : countRunsAux false rest = 0 := by
        rw [← ih false, List.isEmpty_iff.mp h.1]
        rfl
      simp only [countRunsAux, h.2, if_true, hrest]
    · rw [if_neg h]
      simp only [countRunsAux]
      by_cases hw : wsChar c = true
      · simp only [hw, if_true]
        exact ih false
      · have hw2 : wsChar c = false := by rwa [Bool.not_eq_true] at hw
        simp only [hw2, Bool.false_eq_true, if_false]
        rw [ih true]

theorem countRunsAux_dropWhile : ∀ (l : List Char),
    countRunsAux false (l.dropWhile wsChar) = countRunsAux false l := by
  intro l
  induction l with
  | nil => rfl
  | cons c rest ih =>
    rw [List.dropWhile_cons]
    by_cases hw : wsChar c = true
    · rw [if_pos hw, ih, countRunsAux, hw]
      simp only [if_true]
    · rw [Bool.not_eq_true] at hw
      rw [hw]
      simp only [Bool.false_eq_true, if_false]

theorem countRuns_jsTrim (s : String) : countRuns (jsTrim s) = wordsOf s := by
  unfold countRuns jsTrim wordsOf
  rw [countRunsAux_trimEnd, countRunsAux_dropWhile]
  rfl

theorem submitWordCount_gt200 (c : String) (h : 200 < wordsOf c) :
    200 < submitWordCount c := by
  unfold submitWordCount
  by_cases he : (jsTrim c).isEmpty = true
  · exfalso
    have : wordsOf c = 0 := by
      rw [← countRuns_jsTrim, List.isEmpty_iff.mp he]
      rfl
    omega
  · rw [if_neg he, countRuns_jsTrim]
    exact h

theorem submitWordCount_le200 (c : String) (h : wordsOf c ≤ 200) :
    ¬(200 < submitWordCount c) := by
  unfold submitWordCount
  by_cases he : (jsTrim c).isEmpty = true
  · rw [if_pos he]
    omega
  · rw [if_neg he, countRuns_jsTrim]
    omega

/-- C10: the submission route enforces a 200-word content limit: a body
with more than 200 whitespace-separated words is rejected with an error
and no review row is created (the store is returned unchanged), while a
body of at most 200 words is never rejected with the content-length
error. -/
theorem c10_content_word_limit (db : DB)
    (productId rating author email title : Option String) (c : String) :
    (200 < wordsOf c →
      (submitAction db productId rating author (some c) email title).1 ≠ .created ∧
      (submitAction db productId rating author (some c) email title).2 = db) ∧
    (wordsOf c ≤ 200 →
      (submitAction db productId rating author (some c) email title).1 ≠ .contentTooLong) := by
  constructor
  · intro h
    have hw := submitWordCount_gt200 c h
    unfold submitAction
    repeat' split
    all_goals first
      | exact ⟨by simp, rfl⟩
      | exact absurd hw (by assumption)
  · intro h
    have hw := submitWordCount_le200 c h
    unfold submitAction
    repeat' split
    all_goals first
      | exact fun hcon =>
          absurd (‹submitWordCount ((some c).getD "") > 200› : _) hw
      | simp

set_option maxRecDepth 10000 in
theorem c10_content_word_limit_witness :
    200 < wordsOf bigContent ∧
    (submitAction ⟨[], [], [], [], 0⟩ (some "123") (some "5") (some "au") (some bigContent)
        (some "a@b.c") none).1 ≠ SubmitOutcome.created :=
  ⟨by decide,
    ((c10_content_word_limit ⟨[], [], [], [], 0⟩ (some "123") (some "5") (some "au")
        (some "a@b.c") none bigContent).1 (by decide)).1⟩

/-- C2 counterexample: approving a syndicated COPY with scope bundle does
not resolve the copy to its original before the first-approval test: the
original (id 1) already has two links, so per the claim zero additional
copies and links should be created, yet the orchestrator runs
isFirstApproval on the copy id (50), sees no links, and re-syndicates the
copy as a fresh original: the store grows from 3 to 5 reviews and from 2
to 4 links. -/
theorem c2_counterexample :
    findOriginalReviewId wSynd 50 = some 1 ∧
    isFirstApproval wSynd 1 = false ∧
    (isReviewInBundle wSynd 50).isSyndicated = true ∧
    wSynd.productReviews.length = 3 ∧
    wSynd.reviewSyndications.length = 2 ∧
    (changeStatusAction wSynd 50 "approved" "bundle").map
      (fun res => (res.1.productReviews.length, res.1.reviewSyndications.length)) =
      some (5, 4) := by
  refine ⟨by decide, by decide, by decide, by decide, by decide, by decide⟩

/-- C2 (amended): the orchestrator applies isFirstApproval to the event's
target review id itself, with no reverse lookup for approvals.  For an
approval that targets the ORIGINAL review the claimed behavior holds: the
first approval fans out exactly one copy and one link per other bundle
member and then approves the original; approving it again runs the
status-refresh path and creates zero additional copies and zero
additional links — the store is returned exactly unchanged. -/
theorem c2_amended_first_approval (R : Review) (b : ReviewBundle) (A : String)
    (ps : List String) (rid n : Nat)
    (hRid : R.id = rid) (hRprod : R.productId = A)
    (hRorig : R.isBundleReview = false) (hAnorm : getNumericProductId A = A)
    (hsplit : csvSplit b.productIds = ps) (hNodup : ps.Nodup) (hrid : rid < n)
    (hcontains : strContains b.productIds A = true)
    (hsome : ps.any (fun t => !(t == A)) = true) :
    ∃ db1 prods,
      changeStatusAction (scenarioDB R b n) rid "approved" "bundle" = some (db1, prods) ∧
      db1.productReviews.length = 1 + (ps.filter (fun t => !(t == A))).length ∧
      db1.reviewSyndications.map (fun s => s.productId) = ps.filter (fun t => !(t == A)) ∧
      changeStatusAction db1 rid "approved" "bundle" = some (db1, prods) := by
  have hval : ((["pending", "approved", "rejected"] : List String).contains "approved") = true := by
    decide
  have hb1 : (("bundle" : String) == "bundle") = true := by decide
  have hst : (("approved" : String) == "approved") = true := by decide
  have hfind : List.find? (fun bc => strContains bc.productIds A)
      ([b] : List ReviewBundle) = some b :=
    List.find?_cons_of_pos _ hcontains
  have hfr0 : findReview (scenarioDB R b n) rid = some R := by
    unfold findReview scenarioDB
    exact List.find?_cons_of_pos _ (by simp [hRid])
  have hbi0 : isReviewInBundle (scenarioDB R b n) rid = ⟨true, some b.id, false⟩ := by
    unfold isReviewInBundle
    rw [hfr0]
    simp only
    rw [hRprod, hAnorm]
    rw [show (scenarioDB R b n).reviewBundles = [b] from rfl, hfind, hRorig]
  have hbc0 : bundleConfigOf (scenarioDB R b n) (⟨true, some b.id, false⟩ : BundleInfo) =
      some b := by
    unfold bundleConfigOf
    simp only [if_true]
    rw [show (scenarioDB R b n).reviewBundles = [b] from rfl]
    exact List.find?_cons_of_pos _ (by simp)
  have hfa0 : isFirstApproval (scenarioDB R b n) rid = true := rfl
  have hsynd := syndicate_scenario_eq R b A ps rid n hRid hRprod hAnorm hsplit hNodup
  have hset : setReviewStatus
      (⟨R :: mkCopies R b.name rid A ps n, mkBrs b rid A ps n,
        mkSyns rid b.id A ps n, [b], mkNext A ps n⟩ : DB) rid "approved" =
      ⟨{ R with status := "approved" } :: mkCopies R b.name rid A ps n,
       mkBrs b rid A ps n, mkSyns rid b.id A ps n, [b], mkNext A ps n⟩ := by
    unfold setReviewStatus mapReview
    simp only [List.map_cons]
    rw [if_pos (show (R.id == rid) = true by simp [hRid])]
    rw [map_id_of_mem _ _ (fun cpy hc => by
      have hge := mkCopies_id_ge R b.name rid A ps n cpy hc
      rw [if_neg (by simp; omega)])]
  have hfr1 : findReview
      (⟨{ R with status := "approved" } :: mkCopies R b.name rid A ps n,
        mkBrs b rid A ps n, mkSyns rid b.id A ps n, [b], mkNext A ps n⟩ : DB) rid =
      some ({ R with status := "approved" }) := by
    unfold findReview
    exact List.find?_cons_of_pos _ (by simp [hRid])
  have hbi1 : isReviewInBundle
      (⟨{ R with status := "approved" } :: mkCopies R b.name rid A ps n,
        mkBrs b rid A ps n, mkSyns rid b.id A ps n, [b], mkNext A ps n⟩ : DB) rid =
      ⟨true, some b.id, false⟩ := by
    unfold isReviewInBundle
    rw [hfr1]
    simp only
    rw [show ({ R with status := "approved" } : Review).productId = R.productId from rfl,
      hRprod, hAnorm, hfind,
      show ({ R with status := "approved" } : Review).isBundleReview = R.isBundleReview from rfl,
      hRorig]
  have hbc1 : bundleConfigOf
      (⟨{ R with status := "approved" } :: mkCopies R b.name rid A ps n,
        mkBrs b rid A ps n, mkSyns rid b.id A ps n, [b], mkNext A ps n⟩ : DB)
      (⟨true, some b.id, false⟩ : BundleInfo) = some b := by
    unfold bundleConfigOf
    simp only [if_true]
    exact List.find?_cons_of_pos _ (by simp)
  have hfa1 : isFirstApproval
      (⟨{ R with status := "approved" } :: mkCopies R b.name rid A ps n,
        mkBrs b rid A ps n, mkSyns rid b.id A ps n, [b], mkNext A ps n⟩ : DB) rid = false := by
    unfold isFirstApproval
    simp only
    rw [filter_all_true _ _ (fun s hs =>
      beq_iff_eq.mpr (mkSyns_orig rid b.id A ps n s hs))]
    cases hmk : mkSyns rid b.id A ps n with
    | nil => exact absurd hmk (mkSyns_ne_nil rid b.id A ps n hsome)
    | cons x xs => rfl
  have hall : ∀ x ∈ ({ R with status := "approved" } :: mkCopies R b.name rid A ps n),
      x.status = "approved" := by
    intro x hx
    rcases List.mem_cons.mp hx with hx | hx
    · subst hx; rfl
    · exact mkCopies_status R b.name rid A ps n x hx
  have hupd : updateSyndicatedReviewsStatus
      (⟨{ R with status := "approved" } :: mkCopies R b.name rid A ps n,
        mkBrs b rid A ps n, mkSyns rid b.id A ps n, [b], mkNext A ps n⟩ : DB) rid "approved" =
      ⟨{ R with status := "approved" } :: mkCopies R b.name rid A ps n,
       mkBrs b rid A ps n, mkSyns rid b.id A ps n, [b], mkNext A ps n⟩ :=
    updateSyndicatedReviewsStatus_id _ rid "approved" hall
  have hset1 : setReviewStatus
      (⟨{ R with status := "approved" } :: mkCopies R b.name rid A ps n,
        mkBrs b rid A ps n, mkSyns rid b.id A ps n, [b], mkNext A ps n⟩ : DB) rid "approved" =
      ⟨{ R with status := "approved" } :: mkCopies R b.name rid A ps n,
       mkBrs b rid A ps n, mkSyns rid b.id A ps n, [b], mkNext A ps n⟩ :=
    setReviewStatus_id _ rid "approved" hall
  refine ⟨⟨{ R with status := "approved" } :: mkCopies R b.name rid A ps n,
      mkBrs b rid A ps n, mkSyns rid b.id A ps n, [b], mkNext A ps n⟩,
    filterProductIds (jsSetDedup ([A] ++ ps)), ?_, ?_, ?_, ?_⟩
  · unfold changeStatusAction
    simp only [hval, Bool.not_true, Bool.false_eq_true, if_false, hfr0, hbi0, hbc0,
      hb1, hst, eq_self_iff_true, if_true, hfa0, hsynd, hset]
    rw [hRprod, hAnorm, hsplit]
  · rw [List.length_cons, mkCopies_length R b.name rid A ps n, Nat.add_comm]
  · exact mkSyns_map_productId rid b.id A ps n
  · unfold changeStatusAction
    simp only [hval, Bool.not_true, Bool.false_eq_true, if_false, hfr1, hbi1, hbc1,
      hb1, hst, eq_self_iff_true, if_true, hfa1, hupd, hset1]
    rw [show ({ R with status := "approved" } : Review).productId = R.productId from rfl,
      hRprod, hAnorm, hsplit]

theorem c2_amended_first_approval_witness :
    ∃ db1 prods,
      changeStatusAction (scenarioDB wOrigPending wBundle 50) 1 "approved" "bundle" =
        some (db1, prods) ∧
      db1.productReviews.length = 1 + ((["1", "2", "3"] : List String).filter
        (fun t => !(t == "1"))).length ∧
      db1.reviewSyndications.map (fun s => s.productId) = (["1", "2", "3"] : List String).filter
        (fun t => !(t == "1")) ∧
      changeStatusAction db1 1 "approved" "bundle" = some (db1, prods) :=
  c2_amended_first_approval wOrigPending wBundle "1" ["1", "2", "3"] 1 50 rfl rfl rfl
    (by decide) (by decide) (by decide) (by decide) (by decide) (by decide)

end ReviewsBundles
